import Mathlib

/-!
# Verification of the Hydro-Québec usage & billing dashboard (`streamlit_app.py`)

This file gives a shallow embedding of the data-shaping core of the
repository's single source file `src/streamlit_app.py` and proves, or
refutes, the frozen specification claims about it.

Embedding conventions:
* pandas `DataFrame`s are modelled column-major as ordered lists of
  `(label, cells)` pairs (pandas permits duplicate labels, so a list —
  not a map — is used);
* JSON payloads are modelled by the mutual inductive `JValue`;
* Python exceptions are modelled with `Except`/`Option`; code that
  catches an exception and continues is modelled by the corresponding
  `none`/`error` branch;
* library routines of pandas / the Python stdlib that the source calls
  (`pd.to_datetime`, `json.loads`, `str.lower`, …) are modelled
  faithfully on a representative value domain; each model notes its
  simplifications in its doc comment.
-/

/-! ## Python string primitives -/

/-- Model of Python `str.lower` at the character level, for the ASCII
range the source's column names and keys live in (`str.lower` maps
`A`–`Z` to `a`–`z` and leaves other characters alone). -/
def lowerChar (c : Char) : Char :=
  if 65 ≤ c.toNat ∧ c.toNat ≤ 90 then Char.ofNat (c.toNat + 32) else c

/-- Model of Python `str.lower`. -/
def pyLower (s : String) : String :=
  String.mk (s.data.map lowerChar)

theorem lowerChar_idem (c : Char) : lowerChar (lowerChar c) = lowerChar c := by
  unfold lowerChar
  split
  case isTrue h =>
    obtain ⟨h1, h2⟩ := h
    set n := c.toNat with hn
    interval_cases n <;> decide
  case isFalse h => simp [h]

theorem pyLower_idem (s : String) : pyLower (pyLower s) = pyLower s := by
  simp only [pyLower, List.map_map]
  exact congrArg String.mk (List.map_congr_left fun c _ => lowerChar_idem c)

/-! ## Decimal digit strings -/

def digitChar (d : Nat) : Char :=
  match d with
  | 0 => '0' | 1 => '1' | 2 => '2' | 3 => '3' | 4 => '4'
  | 5 => '5' | 6 => '6' | 7 => '7' | 8 => '8' | _ => '9'

def isDigitC (c : Char) : Bool := 48 ≤ c.toNat && c.toNat ≤ 57

def charDigit (c : Char) : Nat := c.toNat - 48

/-- Value of a digit string, most significant digit first. -/
def digitsVal (cs : List Char) : Nat := cs.foldl (fun a c => 10 * a + charDigit c) 0

/-- Zero-padded fixed-width decimal rendering (width `w`); values with
more than `w` digits are rendered modulo `10 ^ w` (pandas timestamps
never need more than the widths used here). -/
def padDigits : Nat → Nat → List Char
  | 0, _ => []
  | w + 1, n => padDigits w (n / 10) ++ [digitChar (n % 10)]

theorem padDigits_length (w n : Nat) : (padDigits w n).length = w := by
  induction w generalizing n with
  | zero => rfl
  | succ w ih => simp [padDigits, ih]

theorem charDigit_digitChar {d : Nat} (h : d < 10) : charDigit (digitChar d) = d := by
  interval_cases d <;> decide

theorem isDigitC_digitChar {d : Nat} (h : d < 10) : isDigitC (digitChar d) = true := by
  interval_cases d <;> decide

theorem padDigits_all_digits (w n : Nat) : ∀ c ∈ padDigits w n, isDigitC c = true := by
  induction w generalizing n with
  | zero => intro c hc; simp [padDigits] at hc
  | succ w ih =>
    intro c hc
    simp only [padDigits, List.mem_append, List.mem_singleton] at hc
    rcases hc with hc | hc
    · exact ih _ c hc
    · subst hc; exact isDigitC_digitChar (Nat.mod_lt _ (by omega))

theorem digitsVal_snoc (cs : List Char) (c : Char) :
    digitsVal (cs ++ [c]) = 10 * digitsVal cs + charDigit c := by
  simp [digitsVal, List.foldl_append]

theorem mod_pow_ten_succ (n w : Nat) :
    n % 10 ^ (w + 1) = 10 * (n / 10 % 10 ^ w) + n % 10 := by
  rw [pow_succ', Nat.mod_mul]; ring

theorem digitsVal_padDigits (w n : Nat) : digitsVal (padDigits w n) = n % 10 ^ w := by
  induction w generalizing n with
  | zero => simp [padDigits, digitsVal, Nat.mod_one]
  | succ w ih =>
    rw [padDigits, digitsVal_snoc, ih, charDigit_digitChar (Nat.mod_lt _ (by omega)),
      mod_pow_ten_succ]

theorem padDigits_mod (w n : Nat) : padDigits w (n % 10 ^ w) = padDigits w n := by
  induction w generalizing n with
  | zero => rfl
  | succ w ih =>
    have hdiv : (n % 10 ^ (w + 1)) / 10 = n / 10 % 10 ^ w := by
      rw [pow_succ', Nat.mod_mul]; omega
    have hmod : (n % 10 ^ (w + 1)) % 10 = n % 10 :=
      Nat.mod_mod_of_dvd n (dvd_pow_self 10 (Nat.succ_ne_zero w))
    rw [padDigits, padDigits, hdiv, hmod, ih]

/-! ## Timestamps (model of `pandas.Timestamp`) -/

/-- A pandas timestamp, at one-second resolution: calendar date plus
seconds within the day (the source never exercises sub-second data). -/
structure Stamp where
  y : Nat
  m : Nat
  d : Nat
  sec : Nat
deriving DecidableEq, Repr

def isLeap (y : Nat) : Bool := (y % 4 == 0 && y % 100 != 0) || y % 400 == 0

def daysInMonth (y m : Nat) : Nat :=
  if m = 2 then (if isLeap y then 29 else 28)
  else if m = 4 ∨ m = 6 ∨ m = 9 ∨ m = 11 then 30 else 31

/-- Read a fixed-width run of decimal digits, returning its value and the
remaining characters. -/
def readFixed (w : Nat) (cs : List Char) : Option (Nat × List Char) :=
  let seg := cs.take w
  if seg.length = w ∧ seg.all isDigitC then some (digitsVal seg, cs.drop w) else none

def expectChar (c : Char) : List Char → Option (List Char)
  | x :: rest => if x = c then some rest else none
  | [] => none

/-- Model of `pandas.to_datetime` applied to one date/time string.  It
accepts the ISO forms the upstream API and the normalizer itself emit:
`YYYY-MM`, `YYYY-MM-DD` and `YYYY-MM-DD HH:MM:SS` (with ` ` or `T` as
the separator); anything else is a parse failure (`pd.to_datetime`
raising).  pandas accepts further exotic formats that the repository
never produces; they are modelled as failures. -/
def parseStampChars (cs : List Char) : Option Stamp := do
  let (y, r1) ← readFixed 4 cs
  let r2 ← expectChar '-' r1
  let (m, r3) ← readFixed 2 r2
  if 1 ≤ m ∧ m ≤ 12 then
    match r3 with
    | [] => some ⟨y, m, 1, 0⟩
    | _ :: _ => do
      let r4 ← expectChar '-' r3
      let (d, r5) ← readFixed 2 r4
      if 1 ≤ d ∧ d ≤ daysInMonth y m then
        match r5 with
        | [] => some ⟨y, m, d, 0⟩
        | sep :: r6 =>
          if sep = ' ' ∨ sep = 'T' then do
            let (hh, r7) ← readFixed 2 r6
            let r8 ← expectChar ':' r7
            let (mi, r9) ← readFixed 2 r8
            let r10 ← expectChar ':' r9
            let (ss, r11) ← readFixed 2 r10
            if hh ≤ 23 ∧ mi ≤ 59 ∧ ss ≤ 59 ∧ r11 = [] then
              some ⟨y, m, d, hh * 3600 + mi * 60 + ss⟩
            else none
          else none
      else none
  else none

/-- Month label rendering: `Timestamp.to_period("M")` followed by
`strftime("%Y-%m")` / `astype(str)`, both of which print `YYYY-MM`. -/
def renderYM (y m : Nat) : List Char :=
  padDigits 4 y ++ '-' :: padDigits 2 m

/-- Calendar-date rendering `YYYY-MM-DD` (`str` of a Python `date`). -/
def renderYMD (y m d : Nat) : List Char :=
  padDigits 4 y ++ '-' :: (padDigits 2 m ++ '-' :: padDigits 2 d)

theorem readFixed_pad (w n : Nat) (rest : List Char) :
    readFixed w (padDigits w n ++ rest) = some (n % 10 ^ w, rest) := by
  have hlen : (padDigits w n).length = w := padDigits_length w n
  have htake : (padDigits w n ++ rest).take w = padDigits w n := List.take_left' hlen
  have hdrop : (padDigits w n ++ rest).drop w = rest := List.drop_left' hlen
  simp only [readFixed, htake, hdrop]
  rw [if_pos, digitsVal_padDigits]
  exact ⟨hlen, by simpa [List.all_eq_true] using padDigits_all_digits w n⟩

theorem readFixed_pad_nil (w n : Nat) :
    readFixed w (padDigits w n) = some (n % 10 ^ w, []) := by
  have := readFixed_pad w n []
  simpa using this

theorem parse_renderYM (y m : Nat) :
    parseStampChars (renderYM y m) =
      if 1 ≤ m % 100 ∧ m % 100 ≤ 12 then some ⟨y % 10 ^ 4, m % 100, 1, 0⟩ else none := by
  simp [parseStampChars, renderYM, readFixed_pad, readFixed_pad_nil, expectChar]

theorem parse_renderYMD (y m d : Nat) :
    parseStampChars (renderYMD y m d) =
      if 1 ≤ m % 100 ∧ m % 100 ≤ 12 then
        if 1 ≤ d % 100 ∧ d % 100 ≤ daysInMonth (y % 10 ^ 4) (m % 100) then
          some ⟨y % 10 ^ 4, m % 100, d % 100, 0⟩
        else none
      else none := by
  simp [parseStampChars, renderYMD, readFixed_pad, readFixed_pad_nil, expectChar]

/-! ## DataFrame cells and the column coercions of `normalize_usage_df` -/

/-- One cell of a modelled DataFrame column: missing data (`None`/`NaN`/
`NaT`), a string, a number, or a datetime. -/
inductive CellVal where
  | null
  | s (v : String)
  | num (q : Rat)
  | dt (st : Stamp)
deriving DecidableEq, Repr

/-- Model of `pd.to_datetime` on one cell.  `none` models the library
raising (the source catches this per column and leaves the column
unchanged); `some none` is `NaT`.  Numeric cells are nanosecond offsets
from the 1970-01-01 epoch in pandas; at this model's one-second
resolution they collapse to the epoch date. -/
def toDatetimeCell : CellVal → Option (Option Stamp)
  | .null => some none
  | .dt st => some (some st)
  | .s v => if v.data = ['N', 'a', 'T'] then some none else (parseStampChars v.data).map some
  | .num _ => some (some ⟨1970, 1, 1, 0⟩)

/-- One cell of `pd.to_datetime(col).dt.to_period("M").astype(str)`
(the Monthly branch of `normalize_usage_df`). -/
def monthlyCell (c : CellVal) : Option CellVal :=
  (toDatetimeCell c).map fun
    | none => .s (String.mk ['N', 'a', 'T'])
    | some st => .s (String.mk (renderYM st.y st.m))

/-- One cell of `pd.to_datetime(col).dt.date.astype(str)`
(the Daily branch of `normalize_usage_df`). -/
def dailyCell (c : CellVal) : Option CellVal :=
  (toDatetimeCell c).map fun
    | none => .s (String.mk ['N', 'a', 'T'])
    | some st => .s (String.mk (renderYMD st.y st.m st.d))

/-- One cell of `pd.to_datetime(col)` (the Hourly branch of
`normalize_usage_df`). -/
def hourlyCell (c : CellVal) : Option CellVal :=
  (toDatetimeCell c).map fun
    | none => .null
    | some st => .dt st

theorem renderYM_ne_nat (y m : Nat) : renderYM y m ≠ ['N', 'a', 'T'] := by
  intro h
  have := congrArg List.length h
  simp [renderYM, padDigits_length] at this

theorem renderYMD_ne_nat (y m d : Nat) : renderYMD y m d ≠ ['N', 'a', 'T'] := by
  intro h
  have := congrArg List.length h
  simp [renderYMD, padDigits_length] at this

theorem padDigits_mod2 (m : Nat) : padDigits 2 (m % 100) = padDigits 2 m := by
  have h := padDigits_mod 2 m
  norm_num at h
  exact h

theorem renderYM_mod (y m : Nat) : renderYM (y % 10 ^ 4) (m % 100) = renderYM y m := by
  simp only [renderYM, padDigits_mod 4 y, padDigits_mod2]

theorem renderYMD_mod (y m d : Nat) :
    renderYMD (y % 10 ^ 4) (m % 100) (d % 100) = renderYMD y m d := by
  simp only [renderYMD, padDigits_mod 4 y, padDigits_mod2]

theorem monthlyCell_round {c c' c'' : CellVal}
    (h1 : monthlyCell c = some c') (h2 : monthlyCell c' = some c'') : c'' = c' := by
  rw [monthlyCell, Option.map_eq_some'] at h1
  obtain ⟨r, hr, hc'⟩ := h1
  cases r with
  | none =>
    simp only [] at hc'
    subst hc'
    have hval : monthlyCell (CellVal.s (String.mk ['N', 'a', 'T'])) =
        some (CellVal.s (String.mk ['N', 'a', 'T'])) := by decide
    rw [hval] at h2
    exact (Option.some.injEq _ _ ▸ h2).symm
  | some st =>
    simp only [] at hc'
    subst hc'
    simp only [monthlyCell, toDatetimeCell, if_neg (renderYM_ne_nat st.y st.m),
      parse_renderYM] at h2
    split at h2
    · simp only [Option.map_some'] at h2
      obtain rfl := (Option.some.injEq _ _).mp h2
      exact congrArg (fun l => CellVal.s (String.mk l)) (renderYM_mod st.y st.m)
    · simp at h2

theorem dailyCell_round {c c' c'' : CellVal}
    (h1 : dailyCell c = some c') (h2 : dailyCell c' = some c'') : c'' = c' := by
  rw [dailyCell, Option.map_eq_some'] at h1
  obtain ⟨r, hr, hc'⟩ := h1
  cases r with
  | none =>
    simp only [] at hc'
    subst hc'
    have hval : dailyCell (CellVal.s (String.mk ['N', 'a', 'T'])) =
        some (CellVal.s (String.mk ['N', 'a', 'T'])) := by decide
    rw [hval] at h2
    exact (Option.some.injEq _ _ ▸ h2).symm
  | some st =>
    simp only [] at hc'
    subst hc'
    simp only [dailyCell, toDatetimeCell, if_neg (renderYMD_ne_nat st.y st.m st.d),
      parse_renderYMD] at h2
    split at h2
    · split at h2
      · simp only [Option.map_some'] at h2
        obtain rfl := (Option.some.injEq _ _).mp h2
        exact congrArg (fun l => CellVal.s (String.mk l)) (renderYMD_mod st.y st.m st.d)
      · simp at h2
    · simp at h2

theorem hourlyCell_round {c c' c'' : CellVal}
    (h1 : hourlyCell c = some c') (h2 : hourlyCell c' = some c'') : c'' = c' := by
  rw [hourlyCell, Option.map_eq_some'] at h1
  obtain ⟨r, hr, hc'⟩ := h1
  cases r with
  | none =>
    simp only [] at hc'
    subst hc'
    simpa [hourlyCell, toDatetimeCell] using h2.symm
  | some st =>
    simp only [] at hc'
    subst hc'
    simpa [hourlyCell, toDatetimeCell] using h2.symm

/-! ## DataFrames and `normalize_usage_df` (lines 88-146) -/

/-- A pandas DataFrame, column-major: ordered `(label, cells)` pairs.
Duplicate labels are legal, as in pandas. -/
abbrev Df := List (String × List CellVal)

def colNames (df : Df) : List String := df.map Prod.fst

/-- `df.empty`: no columns at all, or no rows. -/
def dfEmpty (df : Df) : Bool := df.isEmpty || df.all (fun c => c.2.isEmpty)

/-- `df.rename(columns={c: c.lower() for c in df.columns}, inplace=True)`
(line 94). -/
def lowerStep (df : Df) : Df := df.map (fun c => (pyLower c.1, c.2))

/-- The `first_existing` closure (lines 101-105): first candidate that is
among the frame's column labels. -/
def first_existing (ns : List String) (cands : List String) : Option String :=
  cands.find? (fun c => ns.contains c)

/-- `df.rename(columns={src: dst}, inplace=True)`: every column labelled
`src` is relabelled `dst`. -/
def renameAll (df : Df) (src dst : String) : Df :=
  df.map (fun c => if c.1 = src then (dst, c.2) else c)

/-- The guarded rename `if col and col != canon:
df.rename(columns={col: canon}, inplace=True)`. -/
def maybeRename (df : Df) (col : Option String) (canon : String) : Df :=
  match col with
  | some c => if c ≠ canon then renameAll df c canon else df
  | none => df

/-- Reading `df[n]`: a Series only when exactly one column bears the
label; a duplicated label yields a sub-DataFrame, on which the
subsequent `pd.to_datetime` raises — modelled as `none`. -/
def getSingle (df : Df) (n : String) : Option (List CellVal) :=
  match df.filter (fun c => c.1 = n) with
  | [c] => some c.2
  | _ => none

/-- Writing `df[n] = vals`. -/
def setCol (df : Df) (n : String) (vals : List CellVal) : Df :=
  df.map (fun c => if c.1 = n then (n, vals) else c)

/-- Cell-wise conversion of a whole column; `none` (the library raising
on any one cell) fails the whole column. -/
def convCells (f : CellVal → Option CellVal) : List CellVal → Option (List CellVal)
  | [] => some []
  | c :: cs =>
    match f c, convCells f cs with
    | some y, some ys => some (y :: ys)
    | _, _ => none

/-- The guarded conversion `if canon in df.columns: try: df[canon] = …
except Exception: pass` of lines 114-118 / 127-131 / 140-144, where `f`
converts one cell; a failing cell (or duplicated label) models the
caught exception, leaving the frame unchanged. -/
def convertWith (f : CellVal → Option CellVal) (canon : String) (df : Df) : Df :=
  if (colNames df).contains canon then
    match getSingle df canon with
    | some vals =>
      match convCells f vals with
      | some ys => setCol df canon ys
      | none => df
    | none => df
  else df

def kwh_candidates : List String :=
  ["kwh", "kw_h", "valuekwh", "consumption", "energy", "valeur", "value"]

def date_candidates_monthly : List String :=
  ["month", "periode", "period", "date", "mois"]

def date_candidates_daily : List String :=
  ["date", "jour", "day", "periode", "period"]

def ts_candidates_hourly : List String :=
  ["timestamp", "time", "datetime", "heure", "period", "periode"]

/-- One granularity branch of `normalize_usage_df` (lines 107-144): pick
the time and value columns, rename them to their canonical labels, then
coerce the canonical time column. -/
def normAxis (timeCands : List String) (canon : String) (f : CellVal → Option CellVal)
    (df1 : Df) : Df :=
  let date_col := first_existing (colNames df1) timeCands
  let val_col := first_existing (colNames df1) kwh_candidates
  let df2 := maybeRename df1 date_col canon
  let df3 := maybeRename df2 val_col "kwh"
  convertWith f canon df3

/-- `normalize_usage_df` (lines 88-146): empty frames are returned as
received; otherwise the source copies the frame, lower-cases every
column label, and runs the branch for the given granularity (an unknown
granularity returns the lower-cased copy). -/
def normalize_usage_df (df : Df) (granularity : String) : Df :=
  if dfEmpty df then df
  else
    let df1 := lowerStep df
    if granularity = "Monthly" then normAxis date_candidates_monthly "month" monthlyCell df1
    else if granularity = "Daily" then normAxis date_candidates_daily "date" dailyCell df1
    else if granularity = "Hourly" then normAxis ts_candidates_hourly "timestamp" hourlyCell df1
    else df1

/-! ### Column-label bookkeeping lemmas -/

theorem colNames_lowerStep (df : Df) :
    colNames (lowerStep df) = (colNames df).map pyLower := by
  simp [colNames, lowerStep, List.map_map]

theorem colNames_renameAll (df : Df) (src dst : String) :
    colNames (renameAll df src dst)
      = (colNames df).map (fun x => if x = src then dst else x) := by
  simp only [colNames, renameAll, List.map_map]
  refine List.map_congr_left fun c _ => ?_
  by_cases h : c.1 = src <;> simp [h]

theorem colNames_setCol (df : Df) (n : String) (vals : List CellVal) :
    colNames (setCol df n vals) = colNames df := by
  simp only [colNames, setCol, List.map_map]
  refine List.map_congr_left fun c _ => ?_
  by_cases h : c.1 = n <;> simp [h]

theorem colNames_convertWith (f : CellVal → Option CellVal) (canon : String) (df : Df) :
    colNames (convertWith f canon df) = colNames df := by
  unfold convertWith
  split
  case isTrue =>
    cases hgs : getSingle df canon with
    | none => simp [hgs]
    | some vals =>
      cases hm : convCells f vals with
      | none => simp [hgs, hm]
      | some ys => simp [hgs, hm, colNames_setCol]
  case isFalse => rfl

theorem first_existing_cons (ns : List String) (c : String) (cands : List String) :
    first_existing ns (c :: cands)
      = if c ∈ ns then some c else first_existing ns cands := by
  by_cases h : c ∈ ns <;> simp [first_existing, List.find?_cons, h]

theorem first_existing_mem {ns cands : List String} {c : String}
    (h : first_existing ns cands = some c) : c ∈ cands ∧ c ∈ ns := by
  refine ⟨List.mem_of_find?_eq_some h, ?_⟩
  have := List.find?_some h
  simpa using this

theorem first_existing_none {ns cands : List String}
    (h : first_existing ns cands = none) : ∀ c ∈ cands, c ∉ ns := by
  intro c hc
  have := List.find?_eq_none.mp h c hc
  simpa using this

theorem getSingle_setCol {df : Df} {n : String} {vals : List CellVal} (ys : List CellVal)
    (h : getSingle df n = some vals) : getSingle (setCol df n ys) n = some ys := by
  unfold getSingle at h ⊢
  unfold setCol
  rw [List.filter_map]
  have hpred : ((fun c : String × List CellVal => decide (c.1 = n)) ∘
      (fun c => if c.1 = n then (n, ys) else c))
        = fun c : String × List CellVal => decide (c.1 = n) := by
    funext c
    by_cases hc : c.1 = n <;> simp [hc]
  rw [hpred]
  revert h
  cases hf : df.filter (fun c => c.1 = n) with
  | nil => intro h; cases h
  | cons c tl =>
    cases tl with
    | nil =>
      intro h
      have hc1 : c.1 = n := by
        have : c ∈ df.filter (fun x => x.1 = n) := by rw [hf]; exact List.mem_singleton_self c
        simpa using (List.mem_filter.mp this).2
      simp [hc1]
    | cons c2 tl2 => intro h; cases h

theorem convCells_round {f : CellVal → Option CellVal}
    (hf : ∀ {a b c : CellVal}, f a = some b → f b = some c → c = b) :
    ∀ {vs ys zs : List CellVal},
      convCells f vs = some ys → convCells f ys = some zs → zs = ys := by
  intro vs
  induction vs with
  | nil =>
    intro ys zs h1 h2
    simp only [convCells] at h1
    obtain rfl := (Option.some.injEq _ _).mp h1
    simp only [convCells] at h2
    exact ((Option.some.injEq _ _).mp h2).symm
  | cons v vs ih =>
    intro ys zs h1 h2
    simp only [convCells] at h1
    cases hv : f v with
    | none => rw [hv] at h1; cases h1
    | some b =>
      rw [hv] at h1
      cases hvs : convCells f vs with
      | none => rw [hvs] at h1; cases h1
      | some bs =>
        rw [hvs] at h1
        obtain rfl := (Option.some.injEq _ _).mp h1
        simp only [convCells] at h2
        cases hb : f b with
        | none => rw [hb] at h2; cases h2
        | some c =>
          rw [hb] at h2
          cases hbs : convCells f bs with
          | none => rw [hbs] at h2; cases h2
          | some cs =>
            rw [hbs] at h2
            obtain rfl := (Option.some.injEq _ _).mp h2
            rw [hf hv hb, ih hvs hbs]

theorem setCol_setCol (df : Df) (n : String) (ys : List CellVal) :
    setCol (setCol df n ys) n ys = setCol df n ys := by
  simp only [setCol, List.map_map]
  refine List.map_congr_left fun c _ => ?_
  by_cases hc : c.1 = n <;> simp [hc]

theorem maybeRename_some (df : Df) (c canon : String) :
    maybeRename df (some c) canon = if c ≠ canon then renameAll df c canon else df := rfl

theorem maybeRename_none (df : Df) (canon : String) :
    maybeRename df none canon = df := rfl

theorem mem_colNames_maybeRename {n : String} {df : Df} {col : Option String}
    {canon : String} (h : n ∈ colNames (maybeRename df col canon)) :
    n ∈ colNames df ∨ n = canon := by
  cases col with
  | none => exact Or.inl h
  | some c =>
    rw [maybeRename_some] at h
    by_cases hcc : c = canon
    · rw [if_neg (not_not_intro hcc)] at h
      exact Or.inl h
    · rw [if_pos hcc, colNames_renameAll] at h
      obtain ⟨x, hx, hxe⟩ := List.mem_map.mp h
      by_cases hxc : x = c
      · rw [if_pos hxc] at hxe
        exact Or.inr hxe.symm
      · rw [if_neg hxc] at hxe
        subst hxe
        exact Or.inl hx

theorem canon_mem_maybeRename {df : Df} {c canon : String}
    (hc : c ∈ colNames df) : canon ∈ colNames (maybeRename df (some c) canon) := by
  by_cases hcc : c = canon
  · rw [maybeRename_some, if_neg (not_not_intro hcc), ← hcc]
    exact hc
  · rw [maybeRename_some, if_pos hcc, colNames_renameAll]
    exact List.mem_map.mpr ⟨c, hc, by simp⟩

theorem mem_maybeRename_of_ne {n : String} {df : Df} {col : Option String} {canon : String}
    (hn : n ∈ colNames df) (hne : ∀ c, col = some c → n ≠ c) :
    n ∈ colNames (maybeRename df col canon) := by
  cases col with
  | none => exact hn
  | some c =>
    by_cases hcc : c = canon
    · rw [maybeRename_some, if_neg (not_not_intro hcc)]
      exact hn
    · rw [maybeRename_some, if_pos hcc, colNames_renameAll]
      exact List.mem_map.mpr ⟨n, hn, by rw [if_neg (hne c rfl)]⟩

theorem first_existing_eq_none {ns cands : List String}
    (h : ∀ c ∈ cands, c ∉ ns) : first_existing ns cands = none :=
  List.find?_eq_none.mpr (by intro c hc; simpa using h c hc)

theorem convertWith_unchanged_of_not_mem {f : CellVal → Option CellVal} {canon : String}
    {df : Df} (h : canon ∉ colNames df) : convertWith f canon df = df := by
  unfold convertWith
  rw [if_neg (by simpa using h)]

theorem convertWith_idem (f : CellVal → Option CellVal) (canon : String)
    (hf : ∀ {a b c : CellVal}, f a = some b → f b = some c → c = b) (df : Df) :
    convertWith f canon (convertWith f canon df) = convertWith f canon df := by
  by_cases hmem : canon ∈ colNames df
  case neg =>
    have h1 : convertWith f canon df = df := convertWith_unchanged_of_not_mem hmem
    rw [h1]
    exact h1
  case pos =>
    have hcontains : (colNames df).contains canon = true := by simpa using hmem
    cases hgs : getSingle df canon with
    | none =>
      have h1 : convertWith f canon df = df := by
        unfold convertWith
        rw [if_pos (by simpa using hmem), hgs]
      rw [h1]
      exact h1
    | some vals =>
      cases hm : convCells f vals with
      | none =>
        have h1 : convertWith f canon df = df := by
          unfold convertWith
          rw [if_pos (by simpa using hmem), hgs]
          simp only [hm]
        rw [h1]
        exact h1
      | some ys =>
        have h1 : convertWith f canon df = setCol df canon ys := by
          unfold convertWith
          rw [if_pos (by simpa using hmem), hgs]
          simp only [hm]
        have hmem2 : canon ∈ colNames (setCol df canon ys) := by
          rw [colNames_setCol]; exact hmem
        have hgs2 : getSingle (setCol df canon ys) canon = some ys := getSingle_setCol ys hgs
        rw [h1]
        unfold convertWith
        rw [if_pos (by simpa using hmem2), hgs2]
        cases hys : convCells f ys with
        | none => simp only [hys]
        | some zs =>
          simp only [hys]
          rw [convCells_round hf hm hys, setCol_setCol]

theorem normAxis_unfold (tc : List String) (canon : String)
    (f : CellVal → Option CellVal) (df1 : Df) :
    normAxis tc canon f df1 =
      convertWith f canon
        (maybeRename (maybeRename df1 (first_existing (colNames df1) tc) canon)
          (first_existing (colNames df1) kwh_candidates) "kwh") := rfl

theorem normAxis_idem_aux (tc : List String) (canon : String) (tl : List String)
    (htc : tc = canon :: tl)
    (hdisj : ∀ x ∈ kwh_candidates, x ∉ tc)
    (f : CellVal → Option CellVal)
    (hf : ∀ {a b c : CellVal}, f a = some b → f b = some c → c = b)
    (df1 : Df) (d1 v1 : Option String)
    (hd1 : first_existing (colNames df1) tc = d1)
    (hv1 : first_existing (colNames df1) kwh_candidates = v1) :
    normAxis tc canon f (convertWith f canon (maybeRename (maybeRename df1 d1 canon) v1 "kwh"))
      = convertWith f canon (maybeRename (maybeRename df1 d1 canon) v1 "kwh") := by
  have hkwh_mem : "kwh" ∈ kwh_candidates := by simp [kwh_candidates]
  have hkwh_not_tc : "kwh" ∉ tc := hdisj _ hkwh_mem
  have hcanon_tc : canon ∈ tc := htc ▸ List.mem_cons_self _ _
  have hcanon_ne_kwh : canon ≠ "kwh" := fun h => hkwh_not_tc (h ▸ hcanon_tc)
  have hname3 : ∀ n, n ∈ colNames (maybeRename (maybeRename df1 d1 canon) v1 "kwh") →
      n ∈ colNames df1 ∨ n = canon ∨ n = "kwh" := by
    intro n hn
    rcases mem_colNames_maybeRename hn with h2 | h2
    · rcases mem_colNames_maybeRename h2 with h3 | h3
      · exact Or.inl h3
      · exact Or.inr (Or.inl h3)
    · exact Or.inr (Or.inr h2)
  have hnamesE : colNames (convertWith f canon (maybeRename (maybeRename df1 d1 canon) v1 "kwh"))
      = colNames (maybeRename (maybeRename df1 d1 canon) v1 "kwh") :=
    colNames_convertWith f canon _
  have hcanon_of_d1 : ∀ c, d1 = some c →
      canon ∈ colNames (maybeRename (maybeRename df1 d1 canon) v1 "kwh") := by
    intro c hc
    subst hc
    have hmem := first_existing_mem hd1
    refine mem_maybeRename_of_ne (canon_mem_maybeRename hmem.2) ?_
    intro v hv heq
    subst hv
    have hvk := (first_existing_mem hv1).1
    exact hdisj v hvk (heq ▸ hcanon_tc)
  have hcanon_none : d1 = none →
      canon ∉ colNames (maybeRename (maybeRename df1 d1 canon) v1 "kwh") := by
    intro hc hmem3
    subst hc
    have hnotin := first_existing_none hd1 canon hcanon_tc
    rw [maybeRename_none] at hmem3
    rcases mem_colNames_maybeRename hmem3 with h | h
    · exact hnotin h
    · exact hcanon_ne_kwh h
  cases d1 with
  | some c =>
    have hd2 : first_existing
        (colNames (convertWith f canon (maybeRename (maybeRename df1 (some c) canon) v1 "kwh"))) tc
          = some canon := by
      rw [hnamesE, htc, first_existing_cons, if_pos (hcanon_of_d1 c rfl)]
    cases v1 with
    | some v =>
      have hvmem := first_existing_mem hv1
      have hv_df2 : v ∈ colNames (maybeRename df1 (some c) canon) := by
        refine mem_maybeRename_of_ne hvmem.2 ?_
        intro c2 hc2 heq
        obtain rfl : c = c2 := by injection hc2
        have hctc := (first_existing_mem hd1).1
        exact hdisj v hvmem.1 (heq ▸ hctc)
      have hkwh3 : "kwh" ∈ colNames (maybeRename (maybeRename df1 (some c) canon) (some v) "kwh") :=
        canon_mem_maybeRename hv_df2
      have hv2 : first_existing
          (colNames (convertWith f canon
            (maybeRename (maybeRename df1 (some c) canon) (some v) "kwh"))) kwh_candidates
            = some "kwh" := by
        rw [hnamesE, show kwh_candidates = "kwh" ::
          ["kw_h", "valuekwh", "consumption", "energy", "valeur", "value"] from rfl,
          first_existing_cons, if_pos hkwh3]
      rw [normAxis_unfold, hd2, hv2]
      simp only [maybeRename_some, if_neg (not_not_intro rfl)]
      exact convertWith_idem f canon hf _
    | none =>
      have hv2 : first_existing
          (colNames (convertWith f canon
            (maybeRename (maybeRename df1 (some c) canon) none "kwh"))) kwh_candidates
            = none := by
        refine first_existing_eq_none ?_
        intro k hk hke
        rw [hnamesE] at hke
        have hknone := first_existing_none hv1
        rw [maybeRename_none] at hke
        rcases mem_colNames_maybeRename hke with h | h
        · exact hknone k hk h
        · exact hdisj k hk (h ▸ hcanon_tc)
      rw [normAxis_unfold, hd2, hv2]
      simp only [maybeRename_some, maybeRename_none, if_neg (not_not_intro rfl)]
      exact convertWith_idem f canon hf _
  | none =>
    have hd2 : first_existing
        (colNames (convertWith f canon (maybeRename (maybeRename df1 none canon) v1 "kwh"))) tc
          = none := by
      refine first_existing_eq_none ?_
      intro t ht hte
      rw [hnamesE] at hte
      rcases hname3 t hte with h | h | h
      · exact first_existing_none hd1 t ht h
      · exact hcanon_none rfl (h ▸ hte)
      · exact hkwh_not_tc (h ▸ ht)
    cases v1 with
    | some v =>
      have hvmem := first_existing_mem hv1
      have hv_df2 : v ∈ colNames (maybeRename df1 none canon) := hvmem.2
      have hkwh3 : "kwh" ∈ colNames (maybeRename (maybeRename df1 none canon) (some v) "kwh") :=
        canon_mem_maybeRename hv_df2
      have hv2 : first_existing
          (colNames (convertWith f canon
            (maybeRename (maybeRename df1 none canon) (some v) "kwh"))) kwh_candidates
            = some "kwh" := by
        rw [hnamesE, show kwh_candidates = "kwh" ::
          ["kw_h", "valuekwh", "consumption", "energy", "valeur", "value"] from rfl,
          first_existing_cons, if_pos hkwh3]
      rw [normAxis_unfold, hd2, hv2]
      simp only [maybeRename_some, maybeRename_none, if_neg (not_not_intro rfl)]
      exact convertWith_idem f canon hf _
    | none =>
      have hv2 : first_existing
          (colNames (convertWith f canon
            (maybeRename (maybeRename df1 none canon) none "kwh"))) kwh_candidates
            = none := by
        refine first_existing_eq_none ?_
        intro k hk hke
        rw [hnamesE] at hke
        have hknone := first_existing_none hv1
        rw [maybeRename_none] at hke
        rcases mem_colNames_maybeRename hke with h | h
        · exact hknone k hk h
        · exact hdisj k hk (h ▸ hcanon_tc)
      rw [normAxis_unfold, hd2, hv2]
      simp only [maybeRename_none]
      exact convertWith_idem f canon hf _

theorem normAxis_idem (tc : List String) (canon : String) (tl : List String)
    (htc : tc = canon :: tl)
    (hdisj : ∀ x ∈ kwh_candidates, x ∉ tc)
    (f : CellVal → Option CellVal)
    (hf : ∀ {a b c : CellVal}, f a = some b → f b = some c → c = b)
    (df1 : Df) :
    normAxis tc canon f (normAxis tc canon f df1) = normAxis tc canon f df1 := by
  have h1 : normAxis tc canon f df1 =
      convertWith f canon
        (maybeRename (maybeRename df1 (first_existing (colNames df1) tc) canon)
          (first_existing (colNames df1) kwh_candidates) "kwh") := normAxis_unfold tc canon f df1
  rw [h1]
  exact normAxis_idem_aux tc canon tl htc hdisj f hf df1 _ _ rfl rfl

theorem lowerStep_of_fixed {df : Df} (h : ∀ n ∈ colNames df, pyLower n = n) :
    lowerStep df = df := by
  unfold lowerStep
  conv_rhs => rw [← List.map_id df]
  refine List.map_congr_left fun c hc => ?_
  rw [h c.1 (List.mem_map.mpr ⟨c, hc, rfl⟩)]
  rfl

theorem mem_colNames_normAxis {n : String} {tc : List String} {canon : String}
    {f : CellVal → Option CellVal} {df1 : Df}
    (h : n ∈ colNames (normAxis tc canon f df1)) :
    n ∈ colNames df1 ∨ n = canon ∨ n = "kwh" := by
  rw [normAxis_unfold, colNames_convertWith] at h
  rcases mem_colNames_maybeRename h with h2 | h2
  · rcases mem_colNames_maybeRename h2 with h3 | h3
    · exact Or.inl h3
    · exact Or.inr (Or.inl h3)
  · exact Or.inr (Or.inr h2)

theorem normalize_monthly_eq (d : Df) :
    normalize_usage_df d "Monthly"
      = if dfEmpty d then d
        else normAxis date_candidates_monthly "month" monthlyCell (lowerStep d) := by
  unfold normalize_usage_df
  by_cases h : dfEmpty d
  · rw [if_pos h, if_pos h]
  · rw [if_neg h, if_neg h]
    rfl

theorem normalize_daily_eq (d : Df) :
    normalize_usage_df d "Daily"
      = if dfEmpty d then d
        else normAxis date_candidates_daily "date" dailyCell (lowerStep d) := by
  unfold normalize_usage_df
  by_cases h : dfEmpty d
  · rw [if_pos h, if_pos h]
  · rw [if_neg h, if_neg h]
    rfl

theorem normalize_hourly_eq (d : Df) :
    normalize_usage_df d "Hourly"
      = if dfEmpty d then d
        else normAxis ts_candidates_hourly "timestamp" hourlyCell (lowerStep d) := by
  unfold normalize_usage_df
  by_cases h : dfEmpty d
  · rw [if_pos h, if_pos h]
  · rw [if_neg h, if_neg h]
    rfl

theorem normalize_branch_idem (g : String) (tc : List String) (canon : String)
    (tl : List String) (htc : tc = canon :: tl)
    (hdisj : ∀ x ∈ kwh_candidates, x ∉ tc)
    (f : CellVal → Option CellVal)
    (hf : ∀ {a b c : CellVal}, f a = some b → f b = some c → c = b)
    (hbranch : ∀ d : Df, normalize_usage_df d g
      = if dfEmpty d then d else normAxis tc canon f (lowerStep d))
    (hcanonfix : pyLower canon = canon) (df : Df) :
    normalize_usage_df (normalize_usage_df df g) g = normalize_usage_df df g := by
  by_cases hempty : dfEmpty df
  · rw [hbranch df, if_pos hempty, hbranch df, if_pos hempty]
  · rw [hbranch df, if_neg hempty]
    by_cases he : dfEmpty (normAxis tc canon f (lowerStep df))
    · rw [hbranch _, if_pos he]
    · rw [hbranch _, if_neg he]
      have hfix : lowerStep (normAxis tc canon f (lowerStep df))
          = normAxis tc canon f (lowerStep df) := by
        apply lowerStep_of_fixed
        intro n hn
        rcases mem_colNames_normAxis hn with h | h | h
        · rw [colNames_lowerStep] at h
          obtain ⟨x, _, rfl⟩ := List.mem_map.mp h
          exact pyLower_idem x
        · rw [h]; exact hcanonfix
        · rw [h]; decide
      rw [hfix]
      exact normAxis_idem tc canon tl htc hdisj f hf (lowerStep df)

/-- C3: applying `normalize_usage_df` twice to its own output yields the
same table as applying it once, for every DataFrame and for each of the
three granularities Hourly, Daily and Monthly. -/
theorem claim_C3_normalize_usage_idempotent (df : Df) :
    normalize_usage_df (normalize_usage_df df "Hourly") "Hourly"
        = normalize_usage_df df "Hourly"
    ∧ normalize_usage_df (normalize_usage_df df "Daily") "Daily"
        = normalize_usage_df df "Daily"
    ∧ normalize_usage_df (normalize_usage_df df "Monthly") "Monthly"
        = normalize_usage_df df "Monthly" := by
  refine ⟨?_, ?_, ?_⟩
  · exact normalize_branch_idem "Hourly" ts_candidates_hourly "timestamp"
      ["time", "datetime", "heure", "period", "periode"] rfl (by decide) hourlyCell
      (fun h1 h2 => hourlyCell_round h1 h2) normalize_hourly_eq (by decide) df
  · exact normalize_branch_idem "Daily" date_candidates_daily "date"
      ["jour", "day", "periode", "period"] rfl (by decide) dailyCell
      (fun h1 h2 => dailyCell_round h1 h2) normalize_daily_eq (by decide) df
  · exact normalize_branch_idem "Monthly" date_candidates_monthly "month"
      ["periode", "period", "date", "mois"] rfl (by decide) monthlyCell
      (fun h1 h2 => monthlyCell_round h1 h2) normalize_monthly_eq (by decide) df

theorem kwh_mem_normAxis {tc : List String} {canon : String}
    {f : CellVal → Option CellVal} {df1 : Df}
    (hnk : "kwh" ∉ tc) (hk : "kwh" ∈ colNames df1) :
    "kwh" ∈ colNames (normAxis tc canon f df1) := by
  rw [normAxis_unfold, colNames_convertWith]
  have hv1 : first_existing (colNames df1) kwh_candidates = some "kwh" := by
    rw [show kwh_candidates = "kwh" ::
      ["kw_h", "valuekwh", "consumption", "energy", "valeur", "value"] from rfl,
      first_existing_cons, if_pos hk]
  rw [hv1, maybeRename_some, if_neg (not_not_intro rfl)]
  refine mem_maybeRename_of_ne hk ?_
  intro c hc heq
  have hctc := (first_existing_mem hc).1
  exact hnk (heq ▸ hctc)

/-- C7: when the lower-cased column labels include both `kwh` and
`energy`, the value-column candidate search returns `kwh` (the first
existing candidate in the fixed priority list), and the normalized
output of every granularity still carries the `kwh` column. -/
theorem claim_C7_value_column_priority (df : Df)
    (hrows : dfEmpty df = false)
    (hk : "kwh" ∈ colNames (lowerStep df)) (he : "energy" ∈ colNames (lowerStep df)) :
    first_existing (colNames (lowerStep df)) kwh_candidates = some "kwh"
    ∧ "kwh" ∈ colNames (normalize_usage_df df "Hourly")
    ∧ "kwh" ∈ colNames (normalize_usage_df df "Daily")
    ∧ "kwh" ∈ colNames (normalize_usage_df df "Monthly") := by
  have hne : ¬dfEmpty df = true := by simp [hrows]
  have hsel : first_existing (colNames (lowerStep df)) kwh_candidates = some "kwh" := by
    rw [show kwh_candidates = "kwh" ::
      ["kw_h", "valuekwh", "consumption", "energy", "valeur", "value"] from rfl,
      first_existing_cons, if_pos hk]
  refine ⟨hsel, ?_, ?_, ?_⟩
  · rw [normalize_hourly_eq, if_neg hne]
    exact kwh_mem_normAxis (by decide) hk
  · rw [normalize_daily_eq, if_neg hne]
    exact kwh_mem_normAxis (by decide) hk
  · rw [normalize_monthly_eq, if_neg hne]
    exact kwh_mem_normAxis (by decide) hk

/-- C7 witness: a one-row frame with `KWH` and `energy` columns. -/
theorem claim_C7_witness :
    first_existing (colNames (lowerStep [("KWH", [CellVal.num 1]), ("energy", [CellVal.num 2])]))
        kwh_candidates = some "kwh"
    ∧ "kwh" ∈ colNames (normalize_usage_df
        [("KWH", [CellVal.num 1]), ("energy", [CellVal.num 2])] "Monthly") :=
  ⟨(claim_C7_value_column_priority
      [("KWH", [CellVal.num 1]), ("energy", [CellVal.num 2])]
      (by decide) (by decide) (by decide)).1,
   (claim_C7_value_column_priority
      [("KWH", [CellVal.num 1]), ("energy", [CellVal.num 2])]
      (by decide) (by decide) (by decide)).2.2.2⟩

/-- Heap-level view of `normalize_usage_df` for the aliasing/mutation
claim: slot 0 is the caller's frame object; line 93 (`df = df.copy()`)
allocates an independent deep copy, and every in-place operation of
lines 94-146 (`rename(..., inplace=True)`, `df[col] = …`) targets only
the copy.  On the empty early return (lines 90-91) the input object is
returned unchanged and nothing is mutated.  The pair is (final state of
the caller's object, returned frame). -/
def normalize_usage_df_heap (df : Df) (granularity : String) : Df × Df :=
  if dfEmpty df then (df, df)
  else
    (df,
      let df1 := lowerStep df
      if granularity = "Monthly" then normAxis date_candidates_monthly "month" monthlyCell df1
      else if granularity = "Daily" then normAxis date_candidates_daily "date" dailyCell df1
      else if granularity = "Hourly" then
        normAxis ts_candidates_hourly "timestamp" hourlyCell df1
      else df1)

/-- C10: `normalize_usage_df` never mutates its input frame: after the
call the caller's object still holds its original column labels and
values, and the returned frame is the function's result. -/
theorem claim_C10_no_input_mutation (df : Df) (granularity : String) :
    (normalize_usage_df_heap df granularity).1 = df
    ∧ (normalize_usage_df_heap df granularity).2 = normalize_usage_df df granularity := by
  unfold normalize_usage_df_heap normalize_usage_df
  by_cases h : dfEmpty df
  · rw [if_pos h, if_pos h]
    exact ⟨rfl, rfl⟩
  · rw [if_neg h, if_neg h]
    exact ⟨rfl, rfl⟩

/-! ## JSON values -/

mutual
/-- A decoded JSON value / Python object tree. -/
inductive JValue where
  | null
  | bool (b : Bool)
  | num (q : Rat)
  | str (s : String)
  | arr (xs : JList)
  | obj (fs : JFields)
deriving DecidableEq, Repr

/-- Elements of a JSON array. -/
inductive JList where
  | nil
  | cons (hd : JValue) (tl : JList)
deriving DecidableEq, Repr

/-- Fields of a JSON object / Python dict, in insertion order. -/
inductive JFields where
  | nil
  | cons (k : String) (v : JValue) (tl : JFields)
deriving DecidableEq, Repr
end

/-- Field list of an object as a Lean list. -/
def JFields.toList : JFields → List (String × JValue)
  | .nil => []
  | .cons k v t => (k, v) :: JFields.toList t

def JFields.ofList : List (String × JValue) → JFields
  | [] => .nil
  | (k, v) :: t => .cons k v (JFields.ofList t)

def JList.toList : JList → List JValue
  | .nil => []
  | .cons v t => v :: JList.toList t

def JList.ofList : List JValue → JList
  | [] => .nil
  | v :: t => .cons v (JList.ofList t)

/-- Python `dict.get(k)` (`None` when absent).  Decoded JSON objects
never carry duplicate keys (`json.loads` keeps the last occurrence), so
first-match lookup is faithful. -/
def jget (fs : List (String × JValue)) (k : String) : Option JValue :=
  (fs.find? (fun p => p.1 = k)).map (fun p => p.2)

/-- Python `k in dict`. -/
def jhas (fs : List (String × JValue)) (k : String) : Bool :=
  fs.any (fun p => p.1 = k)

/-- Python truthiness of a decoded JSON value. -/
def pyTruthy : JValue → Bool
  | .null => false
  | .bool b => b
  | .num q => q ≠ 0
  | .str s => s ≠ ""
  | .arr xs => xs != .nil
  | .obj fs => fs != .nil

/-! ## `json.loads` (model) -/

def skipWs : List Char → List Char
  | c :: rest =>
    if c = ' ' ∨ c = '\n' ∨ c = '\t' ∨ c = '\r' then skipWs rest else c :: rest
  | [] => []

/-- Body of a JSON string after the opening quote; a backslash makes the
following character literal (models `\"` and `\\`; the remaining escape
forms are simplified to the escaped character itself). -/
def parseJStrChars : List Char → Option (List Char × List Char)
  | [] => none
  | c :: rest =>
    if c = '"' then some ([], rest)
    else if c = '\\' then
      match rest with
      | [] => none
      | e :: rest2 => (parseJStrChars rest2).map (fun p => (e :: p.1, p.2))
    else (parseJStrChars rest).map (fun p => (c :: p.1, p.2))

def parseDigitsRun : List Char → (List Char × List Char)
  | c :: rest =>
    if isDigitC c then
      let p := parseDigitsRun rest
      (c :: p.1, p.2)
    else ([], c :: rest)
  | [] => ([], [])

/-- JSON number: optional minus, digits, optional fraction (exponent
notation is not modelled; the upstream payloads never use it). -/
def parseJNum (cs : List Char) : Option (Rat × List Char) :=
  let sgn : Bool × List Char := match cs with
    | '-' :: t => (true, t)
    | _ => (false, cs)
  let ip := parseDigitsRun sgn.2
  if ip.1 = [] then none
  else
    let intval : Rat := (digitsVal ip.1 : Nat)
    match ip.2 with
    | '.' :: cs3 =>
      let fp := parseDigitsRun cs3
      if fp.1 = [] then none
      else
        let v : Rat := intval + (digitsVal fp.1 : Nat) / ((10 : Rat) ^ fp.1.length)
        some (if sgn.1 then -v else v, fp.2)
    | _ => some (if sgn.1 then -intval else intval, ip.2)

/-- Python-dict insertion: overwriting a key keeps its original position
but replaces its value; a new key is appended. -/
def dictInsert {α : Type} (d : List (String × α)) (k : String) (v : α) : List (String × α) :=
  if d.any (fun e => e.1 = k) then d.map (fun e => if e.1 = k then (k, v) else e)
  else d ++ [(k, v)]

/-- The Python dict built from a pair sequence (later duplicates win). -/
def pyDict {α : Type} (ps : List (String × α)) : List (String × α) :=
  ps.foldl (fun d p => dictInsert d p.1 p.2) []

mutual
/-- Fuel-based recursive-descent JSON value parser. -/
def parseJ : Nat → List Char → Option (JValue × List Char)
  | 0, _ => none
  | fuel + 1, cs =>
    match skipWs cs with
    | [] => none
    | c :: rest =>
      if c = 'n' then
        match rest with
        | 'u' :: 'l' :: 'l' :: r => some (.null, r)
        | _ => none
      else if c = 't' then
        match rest with
        | 'r' :: 'u' :: 'e' :: r => some (.bool true, r)
        | _ => none
      else if c = 'f' then
        match rest with
        | 'a' :: 'l' :: 's' :: 'e' :: r => some (.bool false, r)
        | _ => none
      else if c = '"' then
        (parseJStrChars rest).map (fun p => (.str (String.mk p.1), p.2))
      else if c = '[' then
        match skipWs rest with
        | ']' :: r2 => some (.arr .nil, r2)
        | _ => (parseJItems fuel rest).map (fun p => (.arr p.1, p.2))
      else if c = '{' then
        match skipWs rest with
        | '}' :: r2 => some (.obj .nil, r2)
        | _ =>
          (parseJPairs fuel rest).map (fun p => (.obj (JFields.ofList (pyDict p.1)), p.2))
      else
        (parseJNum (c :: rest)).map (fun p => (.num p.1, p.2))

/-- Comma-separated array elements up to `]`. -/
def parseJItems : Nat → List Char → Option (JList × List Char)
  | 0, _ => none
  | fuel + 1, cs => do
    let (v, r1) ← parseJ fuel cs
    match skipWs r1 with
    | ',' :: r2 => (parseJItems fuel r2).map (fun p => (.cons v p.1, p.2))
    | ']' :: r2 => some (.cons v .nil, r2)
    | _ => none

/-- Comma-separated `"key": value` pairs up to `}`. -/
def parseJPairs : Nat → List Char → Option (List (String × JValue) × List Char)
  | 0, _ => none
  | fuel + 1, cs =>
    match skipWs cs with
    | '"' :: r1 => do
      let (ks, r2) ← parseJStrChars r1
      match skipWs r2 with
      | ':' :: r3 => do
        let (v, r4) ← parseJ fuel r3
        match skipWs r4 with
        | ',' :: r5 => (parseJPairs fuel r5).map (fun p => ((String.mk ks, v) :: p.1, p.2))
        | '}' :: r5 => some ([(String.mk ks, v)], r5)
        | _ => none
      | _ => none
    | _ => none
end

/-- Model of `json.loads`: parse one value, require only whitespace to
remain; `none` models `json.JSONDecodeError`. -/
def jsonLoads (s : String) : Option JValue :=
  match parseJ (s.length + 1) s.data with
  | some (v, rest) => if skipWs rest = [] then some v else none
  | none => none

/-! ## `parse_monthly_rows_from_results` (lines 23-85) -/

/-- One cell of the `results` column: a JSON string, a decoded dict, or
a value of any other Python type. -/
inductive PCell where
  | pstr (s : String)
  | pdict (fs : JFields)
  | pother
deriving DecidableEq, Repr

/-- One monthly record as appended at lines 56-63 / 72-79.  `dict.get`
misses are Python `None`, identical to decoded JSON `null`, so both are
`JValue.null` here. -/
structure MRec where
  month : String
  kwh : JValue
  start_date : JValue
  end_date : JValue
  avg_kwh_per_day : JValue
  avg_temp : JValue
deriving DecidableEq, Repr

/-- `pd.to_datetime` on one scalar JSON value (line 55 / 71): strings
are parsed (see `parseStampChars`); numbers are nanosecond offsets from
the epoch, collapsed to the epoch date at this model's resolution;
every other type raises. -/
def toDatetimeJ : JValue → Except Unit Stamp
  | .str s =>
    match parseStampChars s.data with
    | some st => .ok st
    | none => .error ()
  | .num _ => .ok ⟨1970, 1, 1, 0⟩
  | _ => .error ()

/-- `payload.get(key) or {}` (lines 46-47) followed by use as a dict: a
falsy value is replaced by the empty dict; a truthy non-dict raises
`AttributeError` at its first `.get` (line 49 / 65). -/
def subObj (v : Option JValue) : Except Unit (List (String × JValue)) :=
  let w := match v with
    | some w => if pyTruthy w then w else .obj .nil
    | none => .obj .nil
  match w with
  | .obj fs => .ok fs.toList
  | _ => .error ()

/-- Lines 49-63 (and identically 65-79): read the five fields of one
sub-object and append a record exactly when the start date is truthy
and the total is not `None`; the month label truncates the parsed start
date to `YYYY-MM`.  `Except.error` is an exception escaping to the
row-level `try`. -/
def emitRec (sub : List (String × JValue)) : Except Unit (Option MRec) :=
  let start := (jget sub "dateDebutMois").getD .null
  let endd := (jget sub "dateFinMois").getD .null
  let total := (jget sub "consoTotalMois").getD .null
  let avg := (jget sub "moyenneKwhJourMois").getD .null
  let temp := (jget sub "tempMoyenneMois").getD .null
  if pyTruthy start ∧ total ≠ .null then
    match toDatetimeJ start with
    | .ok st => .ok (some ⟨String.mk (renderYM st.y st.m), total, start, endd, avg, temp⟩)
    | .error e => .error e
  else .ok none

/-- Lines 46-79 under the row-level `try` of lines 39-81: an exception
abandons the rest of the row but keeps what was already appended (the
current-side append at line 56 precedes the compare-side reads at
line 65). -/
def rowRecords (fs : List (String × JValue)) : Option MRec × Option MRec :=
  match subObj (jget fs "courant") with
  | .error _ => (none, none)
  | .ok cur =>
    match emitRec cur with
    | .error _ => (none, none)
    | .ok curRec =>
      match subObj (jget fs "compare") with
      | .error _ => (curRec, none)
      | .ok cmp =>
        match emitRec cmp with
        | .error _ => (curRec, none)
        | .ok cmpRec => (curRec, cmpRec)

/-- Lines 40-44: a string cell is decoded with `json.loads`; a non-str,
non-dict cell is skipped; a decode failure or a decoded non-dict is
caught/raises at `payload.get` and yields nothing. -/
def cellRecords : PCell → Option MRec × Option MRec
  | .pother => (none, none)
  | .pdict fs => rowRecords fs.toList
  | .pstr s =>
    match jsonLoads s with
    | some (.obj fs) => rowRecords fs.toList
    | some _ => (none, none)
    | none => (none, none)

/-- The raw monthly frame (column-major, `results` cells). -/
abbrev RawDf := List (String × List PCell)

def rawNames (df : RawDf) : List String := df.map Prod.fst

def rawEmpty (df : RawDf) : Bool := df.isEmpty || df.all (fun c => c.2.isEmpty)

def resultsCells (df : RawDf) : List PCell :=
  ((df.find? (fun c => c.1 = "results")).map (fun c => c.2)).getD []

/-- pandas errors surfacing from `parse_monthly_rows_from_results`. -/
inductive PdErr where
  | keyErr (k : String)
deriving DecidableEq, Repr

/-- `parse_monthly_rows_from_results` (lines 23-85).  Note lines 83-84:
`pd.DataFrame(rows).sort_values("month")` raises `KeyError: 'month'`
whenever `rows` is empty, because the empty DataFrame has no columns at
all; only the early return of lines 32-33 produces empty results. -/
def parse_monthly_rows_from_results (df_raw : Option RawDf) :
    Except PdErr (List MRec × List MRec) :=
  match df_raw with
  | none => .ok ([], [])
  | some df =>
    if rawEmpty df || !(rawNames df).contains "results" then .ok ([], [])
    else
      let pairs := (resultsCells df).map cellRecords
      let current_rows := pairs.filterMap (fun p => p.1)
      let compare_rows := pairs.filterMap (fun p => p.2)
      if current_rows.isEmpty then .error (.keyErr "month")
      else if compare_rows.isEmpty then .error (.keyErr "month")
      else
        .ok (List.insertionSort (fun a b => a.month ≤ b.month) current_rows,
          List.insertionSort (fun a b => a.month ≤ b.month) compare_rows)

/-- C1 (code bug): a frame with a `results` column and at least one row
in which no row yields a usable sub-object does NOT return two empty
result sets: with every row unusable the collected row lists are empty,
and `pd.DataFrame([]).sort_values("month")` at lines 83-84 raises
`KeyError: 'month'` (an empty DataFrame has no columns), which escapes
the function. -/
theorem claim_C1_keyerror_on_no_usable_rows :
    "results" ∈ rawNames [("results", [PCell.pdict JFields.nil])]
    ∧ rawEmpty [("results", [PCell.pdict JFields.nil])] = false
    ∧ cellRecords (PCell.pdict JFields.nil) = (none, none)
    ∧ parse_monthly_rows_from_results (some [("results", [PCell.pdict JFields.nil])])
        = .error (.keyErr "month") :=
  ⟨by decide, rfl, rfl, rfl⟩

/-- C2 counterexample: in the sub-object
`{"dateDebutMois": "", "consoTotalMois": 450}` both the start-date and
the total-consumption fields are present and non-null, yet no record is
emitted — line 54 tests Python truthiness of the start date and the
empty string is falsy, so the claimed "if and only if" fails. -/
theorem claim_C2_counterexample :
    jget [("dateDebutMois", JValue.str ""), ("consoTotalMois", JValue.num 450)] "dateDebutMois"
        = some (JValue.str "")
    ∧ JValue.str "" ≠ JValue.null
    ∧ jget [("dateDebutMois", JValue.str ""), ("consoTotalMois", JValue.num 450)] "consoTotalMois"
        = some (JValue.num 450)
    ∧ JValue.num 450 ≠ JValue.null
    ∧ emitRec [("dateDebutMois", JValue.str ""), ("consoTotalMois", JValue.num 450)]
        = .ok none :=
  ⟨rfl, by decide, rfl, by decide, rfl⟩

/-- C2 (amended): a record is emitted for a sub-object iff its
start-date field is present, non-null AND truthy (so in particular
non-empty) AND convertible to a datetime, and its total-consumption
field is present and non-null; when emitted, the month label is the
parsed start date truncated to its calendar month `YYYY-MM`, the kwh
field is the raw total and the start date is carried as read. -/
theorem claim_C2_emission_amended (sub : List (String × JValue)) :
    ((∃ r, emitRec sub = .ok (some r))
      ↔ pyTruthy ((jget sub "dateDebutMois").getD .null) = true
        ∧ (jget sub "consoTotalMois").getD .null ≠ .null
        ∧ ∃ st, toDatetimeJ ((jget sub "dateDebutMois").getD .null) = .ok st)
    ∧ ∀ r st, emitRec sub = .ok (some r)
        → toDatetimeJ ((jget sub "dateDebutMois").getD .null) = .ok st
        → r.month = String.mk (renderYM st.y st.m)
          ∧ r.kwh = (jget sub "consoTotalMois").getD .null
          ∧ r.start_date = (jget sub "dateDebutMois").getD .null := by
  constructor
  · constructor
    · rintro ⟨r, hr⟩
      unfold emitRec at hr
      simp only [] at hr
      split at hr
      case isTrue h =>
        cases ht : toDatetimeJ ((jget sub "dateDebutMois").getD .null) with
        | ok st => exact ⟨h.1, h.2, st, rfl⟩
        | error e =>
          simp only [ht] at hr
          exact Except.noConfusion hr
      case isFalse h => simp at hr
    · rintro ⟨h1, h2, st, hst⟩
      refine ⟨⟨String.mk (renderYM st.y st.m), (jget sub "consoTotalMois").getD .null,
        (jget sub "dateDebutMois").getD .null, (jget sub "dateFinMois").getD .null,
        (jget sub "moyenneKwhJourMois").getD .null, (jget sub "tempMoyenneMois").getD .null⟩, ?_⟩
      unfold emitRec
      rw [if_pos ⟨h1, h2⟩]
      simp only [hst]
  · intro r st hr hst
    unfold emitRec at hr
    simp only [] at hr
    split at hr
    case isTrue h =>
      simp only [hst, Except.ok.injEq, Option.some.injEq] at hr
      rw [← hr]
      exact ⟨rfl, rfl, rfl⟩
    case isFalse h => simp at hr

/-- C2 witness: the sub-object
`{"dateDebutMois": "2024-01-15", "consoTotalMois": 450}` does emit a
record, and its month label is `2024-01`. -/
theorem claim_C2_emission_amended_witness :
    (∃ r, emitRec [("dateDebutMois", JValue.str "2024-01-15"),
        ("consoTotalMois", JValue.num 450)] = .ok (some r))
    ∧ ∀ r, emitRec [("dateDebutMois", JValue.str "2024-01-15"),
        ("consoTotalMois", JValue.num 450)] = .ok (some r) → r.month = "2024-01" := by
  constructor
  · exact (claim_C2_emission_amended _).1.mpr
      ⟨by decide, by decide, ⟨⟨2024, 1, 15, 0⟩, rfl⟩⟩
  · intro r hr
    have h2 := (claim_C2_emission_amended _).2 r ⟨2024, 1, 15, 0⟩ hr rfl
    rw [h2.1]
    rfl

/-! ## `deep_find_items` (lines 432-473) -/

def amount_keys : List String :=
  ["amount", "balance", "solde", "montant", "montantfacture", "montantsolde",
   "prochainmontant", "total", "totalfacture"]

def due_keys : List String :=
  ["duedate", "dateecheance", "echeance", "prochaineecheance", "date_due", "date_limite"]

/-- `normkey` (lines 446-447): drop `_` and `-`, then lower-case. -/
def normkey (k : String) : String :=
  pyLower (String.mk (k.data.filter (fun c => !(c == '_' || c == '-'))))

/-- The dict comprehension `lower = {normkey(k): k for k in x.keys()}`
(line 451): normalized key → original key; a later key with the same
normalized form overwrites the stored original key in place. -/
def lowerEntries (ks : List String) : List (String × String) :=
  pyDict (ks.map (fun k => (normkey k, k)))

/-- `amt_k` / `due_k` (lines 452-453): walk the dict in insertion order
and take the first normalized key belonging to the keyword set, giving
back the original key stored for it. -/
def firstMatchKey (keyset : List String) (ks : List String) : Option String :=
  ((lowerEntries ks).find? (fun e => keyset.contains e.1)).map (fun e => e.2)

/-- One candidate billing record (lines 455-458 plus the identifier
capture of lines 460-466). -/
structure BillingRec where
  amount : Option JValue
  due_date : Option JValue
  ids : List (String × JValue)
deriving DecidableEq, Repr

def id_keys : List String :=
  ["contract", "numeroContrat", "contractId",
   "account", "compte", "accountId",
   "customer", "client", "customerId"]

/-- Lines 452-467: the record one mapping node contributes (one record
when either keyword family matched, none otherwise). -/
def nodeRec (fs : List (String × JValue)) : List BillingRec :=
  let ks := fs.map Prod.fst
  let amt_k := firstMatchKey amount_keys ks
  let due_k := firstMatchKey due_keys ks
  if amt_k.isSome || due_k.isSome then
    [{ amount := amt_k.bind (fun k => jget fs k)
     , due_date := due_k.bind (fun k => jget fs k)
     , ids := id_keys.filterMap
         (fun k => if jhas fs k then some (k, (jget fs k).getD .null) else none) }]
  else []

mutual
/-- `walk` (lines 449-470): emit the node's record, then recurse into
every child value of every mapping and sequence node. -/
def deepWalk : JValue → List BillingRec
  | .obj fs => nodeRec fs.toList ++ walkFields fs
  | .arr xs => walkItems xs
  | _ => []

def walkFields : JFields → List BillingRec
  | .nil => []
  | .cons _ v t => deepWalk v ++ walkFields t

def walkItems : JList → List BillingRec
  | .nil => []
  | .cons v t => deepWalk v ++ walkItems t
end

/-- `deep_find_items` (lines 432-473). -/
def deep_find_items (j : JValue) : List BillingRec := deepWalk j

theorem walkFields_eq : ∀ fs : JFields,
    walkFields fs = (fs.toList.map (fun p => deepWalk p.2)).flatten
  | .nil => rfl
  | .cons k v t => by simp [walkFields, JFields.toList, walkFields_eq t]

theorem walkItems_eq : ∀ xs : JList,
    walkItems xs = (xs.toList.map deepWalk).flatten
  | .nil => rfl
  | .cons v t => by simp [walkItems, JList.toList, walkItems_eq t]

/-- C5: `deep_find_items` recurses into every child value of every
mapping and sequence node regardless of whether the current node
matched (first two conjuncts: the recursion equations, with the node's
own contribution prepended unconditionally), so the two-contract input
yields exactly two records, each carrying its own amount and due date
(third conjunct). -/
theorem claim_C5_deep_find_items_nesting :
    (∀ fs : JFields, deep_find_items (.obj fs)
        = nodeRec fs.toList ++ (fs.toList.map (fun p => deep_find_items p.2)).flatten)
    ∧ (∀ xs : JList, deep_find_items (.arr xs)
        = (xs.toList.map deep_find_items).flatten)
    ∧ deep_find_items (JValue.obj (JFields.ofList
        [("contracts", JValue.arr (JList.ofList
          [JValue.obj (JFields.ofList
            [("montant", JValue.num 10), ("dateEcheance", JValue.str "2024-01-01")]),
           JValue.obj (JFields.ofList
            [("montant", JValue.num 20), ("dateEcheance", JValue.str "2024-02-01")])]))]))
      = [⟨some (JValue.num 10), some (JValue.str "2024-01-01"), []⟩,
         ⟨some (JValue.num 20), some (JValue.str "2024-02-01"), []⟩] := by
  have hdw : deep_find_items = deepWalk := rfl
  refine ⟨?_, ?_, rfl⟩
  · intro fs
    rw [hdw]
    show nodeRec fs.toList ++ walkFields fs = _
    rw [walkFields_eq]
  · intro xs
    rw [hdw]
    show walkItems xs = _
    rw [walkItems_eq]

/-- C9 counterexample: in the node `{"amount": 1, "a_mount": 2}` the
first key in iteration order whose normalized form is amount-like is
`"amount"`, carrying the value 1 — but the emitted record carries the
value 2 of the later key `"a_mount"`, because both keys normalize to
`"amount"` and the dict comprehension at line 451 lets the last
colliding key win. -/
theorem claim_C9_counterexample :
    (List.find? (fun p => amount_keys.contains (normkey p.1))
        [("amount", JValue.num 1), ("a_mount", JValue.num 2)]).map (fun p => p.2)
      = some (JValue.num 1)
    ∧ deep_find_items
        (JValue.obj (JFields.ofList [("amount", JValue.num 1), ("a_mount", JValue.num 2)]))
      = [⟨some (JValue.num 2), none, []⟩]
    ∧ JValue.num 2 ≠ JValue.num 1 :=
  ⟨rfl, rfl, by decide⟩

theorem pyDict_go {α : Type} : ∀ (ps acc : List (String × α)),
    (ps.map Prod.fst).Nodup →
    (∀ k ∈ ps.map Prod.fst, ∀ e ∈ acc, e.1 ≠ k) →
    ps.foldl (fun d p => dictInsert d p.1 p.2) acc = acc ++ ps := by
  intro ps
  induction ps with
  | nil => intro acc _ _; simp
  | cons p t ih =>
    intro acc hnd hdisj
    have hnotin : acc.any (fun e => e.1 = p.1) = false := by
      rw [List.any_eq_false]
      intro e he
      simpa using hdisj p.1 (by simp) e he
    have hstep : dictInsert acc p.1 p.2 = acc ++ [p] := by
      unfold dictInsert
      rw [hnotin]
      simp
    have hnd2 : (p.1 :: t.map Prod.fst).Nodup := by simpa using hnd
    have hhead : p.1 ∉ t.map Prod.fst := (List.nodup_cons.mp hnd2).1
    have htail : (t.map Prod.fst).Nodup := (List.nodup_cons.mp hnd2).2
    simp only [List.foldl_cons, hstep]
    rw [ih (acc ++ [p]) htail ?_]
    · simp
    · intro k hk e he
      rcases List.mem_append.mp he with h | h
      · exact hdisj k (by simp [hk]) e h
      · rw [List.mem_singleton.mp h]
        intro hpk
        exact hhead (hpk ▸ hk)

theorem pyDict_nodup {α : Type} (ps : List (String × α))
    (h : (ps.map Prod.fst).Nodup) : pyDict ps = ps := by
  have := pyDict_go ps [] h (by simp)
  simpa [pyDict] using this

theorem firstMatchKey_nodup (keyset : List String) (ks : List String)
    (h : (ks.map normkey).Nodup) :
    firstMatchKey keyset ks = ks.find? (fun k => keyset.contains (normkey k)) := by
  unfold firstMatchKey lowerEntries
  rw [pyDict_nodup _ (by rw [List.map_map]; exact h), List.find?_map, Option.map_map]
  have h1 : ((fun (e : String × String) => e.2) ∘ fun k => (normkey k, k)) = id := rfl
  have h2 : ((fun (e : String × String) => keyset.contains e.1) ∘ fun k => (normkey k, k))
      = fun k => keyset.contains (normkey k) := rfl
  rw [h1, h2, Option.map_id]
  rfl

/-- C9 (amended): `deep_find_items` emits at most one record per
mapping node; the record's amount (resp. due-date) key is the first
matching key in the node's key-iteration order whenever the node's keys
have pairwise-distinct normalized forms — but when several distinct
keys share one normalized form, the last such key (and its value) is
the one used, as `claim_C9_counterexample` shows. -/
theorem claim_C9_at_most_one_record (fs : List (String × JValue)) :
    (nodeRec fs).length ≤ 1
    ∧ ((fs.map (fun p => normkey p.1)).Nodup →
        firstMatchKey amount_keys (fs.map Prod.fst)
          = (fs.find? (fun p => amount_keys.contains (normkey p.1))).map (fun p => p.1)
        ∧ firstMatchKey due_keys (fs.map Prod.fst)
          = (fs.find? (fun p => due_keys.contains (normkey p.1))).map (fun p => p.1)) := by
  constructor
  · unfold nodeRec
    simp only []
    split <;> simp
  · intro hnd
    have hnd' : ((fs.map Prod.fst).map normkey).Nodup := by
      rw [List.map_map]
      exact hnd
    constructor
    · rw [firstMatchKey_nodup _ _ hnd', List.find?_map]
      rfl
    · rw [firstMatchKey_nodup _ _ hnd', List.find?_map]
      rfl

/-- C9 witness: on the node `{"montant": 10, "solde": 20}` (distinct
normalized key forms) the amount key selected is the first matching
key, `montant`. -/
theorem claim_C9_at_most_one_record_witness :
    (nodeRec [("montant", JValue.num 10), ("solde", JValue.num 20)]).length ≤ 1
    ∧ firstMatchKey amount_keys ["montant", "solde"] = some "montant" := by
  refine ⟨(claim_C9_at_most_one_record [("montant", JValue.num 10), ("solde", JValue.num 20)]).1, ?_⟩
  have h := ((claim_C9_at_most_one_record
    [("montant", JValue.num 10), ("solde", JValue.num 20)]).2 (by decide)).1
  exact h.trans rfl

/-! ## `normalize_billing` (lines 475-499) -/

/-- One element of the raw list handed to `normalize_billing`: a value
that decoded JSON can represent (`None`, dict, list, str, number,
bool), or a Python object of any other type. -/
inductive RawIn where
  | rv (j : JValue)
  | rother
deriving DecidableEq, Repr

/-- Lines 477-487: `None` is skipped; dicts and lists are deep-searched
directly; strings are decoded with `json.loads` first (decode failures
are swallowed); every other type contributes nothing. -/
def extractRows (raws : List RawIn) : List BillingRec :=
  (raws.map (fun r =>
    match r with
    | .rv (.obj fs) => deep_find_items (.obj fs)
    | .rv (.arr xs) => deep_find_items (.arr xs)
    | .rv (.str s) =>
      match jsonLoads s with
      | some j => deep_find_items j
      | none => []
    | _ => [])).flatten

/-- The row content pandas hashes for `drop_duplicates`: the amount and
due-date cells plus the nine possible identifier columns, with Python
`None` / JSON `null` / absent cells all collapsing to `NaN`. -/
def pandasKey (r : BillingRec) : JValue × JValue × List JValue :=
  (r.amount.getD .null, r.due_date.getD .null,
    id_keys.map (fun k => ((r.ids.find? (fun e => e.1 = k)).map (fun e => e.2)).getD .null))

/-- `DataFrame.duplicated`: a row is dropped iff an earlier row has the
same content; `seen` carries the keys of the rows already kept. -/
def dropDupGo (seen : List (JValue × JValue × List JValue)) :
    List BillingRec → List BillingRec
  | [] => []
  | r :: rest =>
    if pandasKey r ∈ seen then dropDupGo seen rest
    else r :: dropDupGo (pandasKey r :: seen) rest

/-- Hashability of one cell value: pandas `drop_duplicates` hashes the
row contents, and a dict- or list-valued cell raises
`TypeError: unhashable type`. -/
def unhashableCell : JValue → Bool
  | .obj _ => true
  | .arr _ => true
  | _ => false

/-- A record whose amount, due-date or captured identifier cell holds a
dict or list makes line 490 raise. -/
def rowHasUnhashable (r : BillingRec) : Bool :=
  unhashableCell (r.amount.getD .null) || unhashableCell (r.due_date.getD .null)
    || r.ids.any (fun e => unhashableCell e.2)

/-- `df.drop_duplicates()` (line 490): an uncaught `TypeError` when any
amount/due-date/identifier cell is unhashable (a dict or a list);
otherwise the first occurrence of each pandas-equal row is kept. -/
def drop_duplicates (rows : List BillingRec) : Except Unit (List BillingRec) :=
  if rows.any rowHasUnhashable then .error () else .ok (dropDupGo [] rows)

/-- `pd.to_numeric(col, errors="coerce")` on one cell (line 492):
numbers stay, booleans are numeric (`True` → 1), numeric strings parse
(optional sign, digits, optional fraction), everything else becomes
`NaN`. -/
def coerceNum : Option JValue → Option Rat
  | some (.num q) => some q
  | some (.bool b) => some (if b then 1 else 0)
  | some (.str s) =>
    match parseJNum s.data with
    | some p => if p.2 = [] then some p.1 else none
    | none => none
  | _ => none

/-- `pd.to_datetime(cell, errors="coerce")` (line 496): strings parse
as datetimes or become `NaT`, numbers are epoch offsets, `None`/absent
becomes `NaT` — but a boolean raises `TypeError` even under
`errors="coerce"` (as does a dict or list, though those already blew up
at line 490), which the `try` of lines 495-498 catches. -/
def coerceDt : Option JValue → Except Unit (Option Stamp)
  | none => .ok none
  | some (.str s) => .ok (parseStampChars s.data)
  | some (.num _) => .ok (some ⟨1970, 1, 1, 0⟩)
  | some .null => .ok none
  | some (.bool _) => .error ()
  | some (.obj _) => .error ()
  | some (.arr _) => .error ()

/-- The whole-column due-date coercion of line 496: one raising cell
fails the column, and with it the `try` enclosing both the coercion and
the sort. -/
def coerceDueCol : List BillingRec → Except Unit (List (Option Stamp))
  | [] => .ok []
  | r :: t =>
    match coerceDt r.due_date, coerceDueCol t with
    | .ok st, .ok sts => .ok (st :: sts)
    | _, _ => .error ()

/-- A due-date cell of the final table: coerced to a datetime (`dt`,
possibly `NaT`), or left as the raw extracted cell when the coercion
raised and the `except` of line 498 skipped both the assignment and the
sort. -/
inductive DueCell where
  | raw (v : Option JValue)
  | dt (st : Option Stamp)
deriving DecidableEq, Repr

/-- One row of the final billing table. -/
structure BillingOut where
  amount : Option Rat
  due_date : DueCell
  ids : List (String × JValue)
deriving DecidableEq, Repr

/-- Lexicographic order on equal-length Nat lists. -/
def lexLe : List Nat → List Nat → Bool
  | [], _ => true
  | _ :: _, [] => false
  | a :: as, b :: bs => if a < b then true else if b < a then false else lexLe as bs

def stampLe (a b : Stamp) : Bool :=
  lexLe [a.y, a.m, a.d, a.sec] [b.y, b.m, b.d, b.sec]

/-- Ascending due-date order with `NaT` last
(`sort_values("due_date", na_position="last")`, line 497). -/
def dueLe (a b : Option Stamp) : Bool :=
  match a, b with
  | _, none => true
  | none, some _ => false
  | some x, some y => stampLe x y

/-- Ascending coerced due dates; a raw (uncoerced) cell is never in
order with anything — the relation is satisfiable only on a fully
coerced column. -/
def dueCellLe : DueCell → DueCell → Bool
  | .dt a, .dt b => dueLe a b
  | _, _ => false

/-- `normalize_billing` (lines 475-499): extract candidate rows;
`drop_duplicates` (line 490, raising on unhashable cells, uncaught);
coerce the amount column (line 492, total on hashable cells); then —
inside one `try` (lines 495-498) — coerce the due-date column and sort
by it ascending with nulls last, falling back, when that coercion
raises, to the deduplicated table with raw due-date cells in traversal
order, unsorted.  (pandas' quicksort is modelled by insertion sort; the
ordering property claimed is independent of the algorithm.) -/
def normalize_billing (raws : List RawIn) : Except Unit (List BillingOut) :=
  let rows := extractRows raws
  if rows = [] then .ok []
  else
    match drop_duplicates rows with
    | .error e => .error e
    | .ok dd =>
      match coerceDueCol dd with
      | .ok sts =>
        .ok ((List.insertionSort (fun a b => dueLe a.2 b.2 = true) (dd.zip sts)).map
          (fun p => ⟨coerceNum p.1.amount, .dt p.2, p.1.ids⟩))
      | .error _ =>
        .ok (dd.map (fun r => ⟨coerceNum r.amount, .raw r.due_date, r.ids⟩))

theorem lexLe_total : ∀ as bs : List Nat, lexLe as bs = true ∨ lexLe bs as = true := by
  intro as
  induction as with
  | nil => intro bs; left; rfl
  | cons a as ih =>
    intro bs
    cases bs with
    | nil => right; rfl
    | cons b bs =>
      by_cases hab : a < b
      · left; simp [lexLe, hab]
      · by_cases hba : b < a
        · right; simp [lexLe, hba, hab]
        · have : ¬a < b := hab
          rcases ih bs with h | h
          · left; simp [lexLe, hab, hba, h]
          · right; simp [lexLe, hab, hba, h]

theorem lexLe_trans : ∀ as bs cs : List Nat,
    lexLe as bs = true → lexLe bs cs = true → lexLe as cs = true := by
  intro as
  induction as with
  | nil => intro bs cs _ _; rfl
  | cons a as ih =>
    intro bs cs h1 h2
    cases bs with
    | nil => simp [lexLe] at h1
    | cons b bs =>
      cases cs with
      | nil => simp [lexLe] at h2
      | cons c cs =>
        simp only [lexLe] at h1 h2 ⊢
        split at h1
        · split at h2
          · have : a < c := by omega
            simp [this]
          · split at h2
            · exact absurd h2 (by simp)
            · have : a < c := by omega
              simp [this]
        · split at h1
          · exact absurd h1 (by simp)
          · split at h2
            · have : a < c := by omega
              simp [this]
            · split at h2
              · exact absurd h2 (by simp)
              · have hac : ¬a < c := by omega
                have hca : ¬c < a := by omega
                simp [hac, hca]
                exact ih bs cs h1 h2

theorem dueLe_total (a b : Option Stamp) : dueLe a b = true ∨ dueLe b a = true := by
  cases a with
  | none => cases b with
    | none => left; rfl
    | some y => right; rfl
  | some x => cases b with
    | none => left; rfl
    | some y => exact lexLe_total _ _

theorem dueLe_trans {a b c : Option Stamp}
    (h1 : dueLe a b = true) (h2 : dueLe b c = true) : dueLe a c = true := by
  cases a <;> cases b <;> cases c <;> simp_all [dueLe]
  exact lexLe_trans _ _ _ h1 h2

instance billingPairRelTotal :
    IsTotal (BillingRec × Option Stamp) (fun a b => dueLe a.2 b.2 = true) :=
  ⟨fun a b => dueLe_total a.2 b.2⟩

instance billingPairRelTrans :
    IsTrans (BillingRec × Option Stamp) (fun a b => dueLe a.2 b.2 = true) :=
  ⟨fun _ _ _ h1 h2 => dueLe_trans h1 h2⟩

theorem dropDupGo_cons (seen : List (JValue × JValue × List JValue))
    (r : BillingRec) (rest : List BillingRec) :
    dropDupGo seen (r :: rest)
      = if pandasKey r ∈ seen then dropDupGo seen rest
        else r :: dropDupGo (pandasKey r :: seen) rest := rfl

theorem dropDupGo_spec : ∀ (l : List BillingRec) (seen : List (JValue × JValue × List JValue)),
    (∀ x ∈ dropDupGo seen l, pandasKey x ∉ seen)
    ∧ (dropDupGo seen l).Pairwise (fun a b => pandasKey a ≠ pandasKey b)
    ∧ (∀ r ∈ l, pandasKey r ∈ seen ∨ ∃ x ∈ dropDupGo seen l, pandasKey x = pandasKey r) := by
  intro l
  induction l with
  | nil => intro seen; exact ⟨by simp [dropDupGo], by simp [dropDupGo], by simp⟩
  | cons r rest ih =>
    intro seen
    by_cases hmem : pandasKey r ∈ seen
    · rw [show dropDupGo seen (r :: rest) = dropDupGo seen rest from by
        rw [dropDupGo_cons, if_pos hmem]]
      refine ⟨(ih seen).1, (ih seen).2.1, ?_⟩
      intro s hs
      rcases List.mem_cons.mp hs with h | h
      · subst h; exact Or.inl hmem
      · exact (ih seen).2.2 s h
    · rw [show dropDupGo seen (r :: rest) = r :: dropDupGo (pandasKey r :: seen) rest from by
        rw [dropDupGo_cons, if_neg hmem]]
      have iht := ih (pandasKey r :: seen)
      refine ⟨?_, ?_, ?_⟩
      · intro x hx
        rcases List.mem_cons.mp hx with h | h
        · subst h; exact hmem
        · intro hxs
          exact iht.1 x h (List.mem_cons_of_mem _ hxs)
      · refine List.pairwise_cons.mpr ⟨?_, iht.2.1⟩
        intro y hy heq
        exact iht.1 y hy (heq ▸ List.mem_cons_self _ _)
      · intro s hs
        rcases List.mem_cons.mp hs with h | h
        · subst h
          exact Or.inr ⟨s, List.mem_cons_self _ _, rfl⟩
        · rcases iht.2.2 s h with h2 | h2
          · rcases List.mem_cons.mp h2 with h3 | h3
            · exact Or.inr ⟨r, List.mem_cons_self _ _, h3.symm⟩
            · exact Or.inl h3
          · obtain ⟨x, hx1, hx2⟩ := h2
            exact Or.inr ⟨x, List.mem_cons_of_mem _ hx1, hx2⟩

/-- The deduplicated row set on the hashable path. -/
def dedupRows (raws : List RawIn) : List BillingRec :=
  dropDupGo [] (extractRows raws)

theorem normalize_billing_eq (raws : List RawIn) :
    normalize_billing raws =
      (if extractRows raws = [] then .ok []
       else if (extractRows raws).any rowHasUnhashable then .error ()
       else
        match coerceDueCol (dedupRows raws) with
        | .ok sts =>
          .ok ((List.insertionSort (fun a b => dueLe a.2 b.2 = true)
              ((dedupRows raws).zip sts)).map
            (fun p => ⟨coerceNum p.1.amount, .dt p.2, p.1.ids⟩))
        | .error _ =>
          .ok ((dedupRows raws).map
            (fun r => ⟨coerceNum r.amount, .raw r.due_date, r.ids⟩))) := by
  unfold normalize_billing drop_duplicates
  by_cases h0 : extractRows raws = []
  · rw [if_pos h0, if_pos h0]
  · rw [if_neg h0, if_neg h0]
    by_cases h1 : (extractRows raws).any rowHasUnhashable = true
    · rw [if_pos h1, if_pos h1]
    · rw [if_neg h1, if_neg h1]
      rfl

/-- Input refuting C4's ordering guarantee: three billing nodes with
due dates `2024-05-01`, `2024-01-01` and `True`. -/
def c4unsortedIn : List RawIn :=
  [RawIn.rv (.arr (JList.ofList
    [.obj (JFields.ofList [("montant", .num 1), ("dateEcheance", .str "2024-05-01")]),
     .obj (JFields.ofList [("montant", .num 2), ("dateEcheance", .str "2024-01-01")]),
     .obj (JFields.ofList [("montant", .num 3), ("dateEcheance", .bool true)])]))]

/-- C4 counterexample: on `c4unsortedIn` the boolean due-date cell
makes `pd.to_datetime(..., errors="coerce")` raise (booleans raise even
under coercion), the `except` of line 498 swallows it and skips the
sort, and the table comes back in traversal order: `2024-05-01` before
the strictly earlier `2024-01-01`, with the uncoercible cell not last —
not "ordered by due date ascending with nulls last".  And a dict-valued
amount cell makes `drop_duplicates` at line 490 raise an uncaught
`TypeError`, so that input is not collapsed (or returned) at all. -/
theorem claim_C4_counterexample :
    Except.map (fun out => out.map (fun r => r.due_date)) (normalize_billing c4unsortedIn)
      = .ok [DueCell.raw (some (.str "2024-05-01")), DueCell.raw (some (.str "2024-01-01")),
          DueCell.raw (some (.bool true))]
    ∧ stampLe ⟨2024, 1, 1, 0⟩ ⟨2024, 5, 1, 0⟩ = true
    ∧ stampLe ⟨2024, 5, 1, 0⟩ ⟨2024, 1, 1, 0⟩ = false
    ∧ normalize_billing
        [RawIn.rv (.obj (JFields.ofList
          [("montant", .obj (JFields.ofList [("x", .num 1)]))]))] = .error () :=
  ⟨rfl, by decide, by decide, rfl⟩

/-- C4 (amended): when every extracted amount/due-date/identifier cell
is hashable (no dict- or list-valued cells) the function returns
normally; records with identical field values collapse to one
representative of the deduplicated set; when the due-date column
coercion succeeds, every returned due-date cell is coerced and the
table is ordered by due date ascending with null (uncoercible-to-NaT or
absent) due dates placed last; when the coercion raises (e.g. on a
boolean cell) the deduplicated table is returned with raw due-date
cells, unsorted. -/
theorem claim_C4_normalize_billing_amended (raws : List RawIn)
    (hhash : ∀ r ∈ extractRows raws, rowHasUnhashable r = false) :
    (∃ out, normalize_billing raws = .ok out)
    ∧ (∀ r ∈ extractRows raws, ∃ x ∈ dedupRows raws, pandasKey x = pandasKey r)
    ∧ (dedupRows raws).Pairwise (fun a b => pandasKey a ≠ pandasKey b)
    ∧ (∀ sts, coerceDueCol (dedupRows raws) = .ok sts →
        ∀ out, normalize_billing raws = .ok out →
          (∀ x ∈ out, ∃ st, x.due_date = DueCell.dt st)
          ∧ out.Pairwise (fun a b => dueCellLe a.due_date b.due_date = true))
    ∧ (coerceDueCol (dedupRows raws) = .error () →
        normalize_billing raws
          = .ok ((dedupRows raws).map
              (fun r => ⟨coerceNum r.amount, .raw r.due_date, r.ids⟩))) := by
  have hany : ¬((extractRows raws).any rowHasUnhashable = true) := by
    rw [List.any_eq_true]
    rintro ⟨r, hr, hbad⟩
    rw [hhash r hr] at hbad
    cases hbad
  have hcover : ∀ r ∈ extractRows raws, ∃ x ∈ dedupRows raws, pandasKey x = pandasKey r := by
    intro r hr
    rcases (dropDupGo_spec (extractRows raws) []).2.2 r hr with h | h
    · simp at h
    · exact h
  have hpair : (dedupRows raws).Pairwise (fun a b => pandasKey a ≠ pandasKey b) :=
    (dropDupGo_spec (extractRows raws) []).2.1
  by_cases h0 : extractRows raws = []
  · have hdd : dedupRows raws = [] := by rw [dedupRows, h0]; rfl
    have hnb : normalize_billing raws = .ok [] := by rw [normalize_billing_eq, if_pos h0]
    refine ⟨⟨[], hnb⟩, hcover, hpair, ?_, ?_⟩
    · intro sts hsts out hout
      rw [hnb] at hout
      obtain rfl : ([] : List BillingOut) = out := by
        injection hout with h
      exact ⟨fun x hx => ((List.not_mem_nil x) hx).elim, List.Pairwise.nil⟩
    · intro herr
      rw [hdd] at herr
      exact Except.noConfusion herr
  · rw [normalize_billing_eq, if_neg h0, if_neg hany]
    cases hcol : coerceDueCol (dedupRows raws) with
    | ok sts =>
      refine ⟨⟨_, rfl⟩, hcover, hpair, ?_, ?_⟩
      · intro sts' hsts' out hout
        injection hsts' with hinj
        subst hinj
        injection hout with hout2
        subst hout2
        constructor
        · intro x hx
          obtain ⟨p, _, hpx⟩ := List.mem_map.mp hx
          refine ⟨p.2, ?_⟩
          rw [← hpx]
        · have hsorted := List.sorted_insertionSort
            (fun (a b : BillingRec × Option Stamp) => dueLe a.2 b.2 = true)
            ((dedupRows raws).zip sts)
          exact List.pairwise_map.mpr (hsorted.imp (fun hab => hab))
      · intro herr
        exact Except.noConfusion herr
    | error e =>
      refine ⟨⟨_, rfl⟩, hcover, hpair, ?_, ?_⟩
      · intro sts' hsts' out hout
        exact Except.noConfusion hsts'
      · intro _
        rfl

/-- Input for the C4 witness: due dates `2024-05-01`, `2024-01-01` and
absent, which must come back ordered `2024-01-01`, `2024-05-01`, null
last. -/
def c4sortedIn : List RawIn :=
  [RawIn.rv (.arr (JList.ofList
    [.obj (JFields.ofList [("montant", .num 1), ("dateEcheance", .str "2024-05-01")]),
     .obj (JFields.ofList [("montant", .num 2), ("dateEcheance", .str "2024-01-01")]),
     .obj (JFields.ofList [("montant", .num 3)])]))]

/-- C4 witness: the amended theorem applied to `c4sortedIn` — the run
succeeds, deduplicated rows are pairwise distinct, and the fully
coercible due-date column comes back sorted. -/
theorem claim_C4_normalize_billing_amended_witness :
    (∃ out, normalize_billing c4sortedIn = .ok out)
    ∧ (dedupRows c4sortedIn).Pairwise (fun a b => pandasKey a ≠ pandasKey b)
    ∧ ∀ out, normalize_billing c4sortedIn = .ok out →
        out.Pairwise (fun a b => dueCellLe a.due_date b.due_date = true) := by
  have h := claim_C4_normalize_billing_amended c4sortedIn (by decide)
  refine ⟨h.1, h.2.2.1, ?_⟩
  intro out hout
  exact (h.2.2.2.1 _ rfl out hout).2

/-! ## `call_hydroqc_once` (lines 351-377) -/

/-- An argument value supplied by the invoker: a configured identifier
string, or the SSL-verification flag. -/
inductive ArgVal where
  | idv (s : String)
  | flag (b : Bool)
deriving DecidableEq, Repr

/-- An accessor as seen through `inspect.signature`: its declared
parameter names in order. -/
structure Accessor where
  params : List String
deriving DecidableEq, Repr

/-- Truthiness of a configured secret (`st.secrets.get` returns `None`
or a string; line 366 tests `and cust_id`). -/
def cfgTruthy : Option String → Bool
  | some s => s ≠ ""
  | none => false

def recognized_params : List String :=
  ["customer", "customer_id", "account", "account_id",
   "contract", "contract_id", "verify_ssl"]

/-- Lines 363-373: assemble the keyword arguments, supplying a
configured identifier for each parameter whose lower-cased name matches
a recognized role (and `True` for `verify_ssl`); parameters with no
recognized role are left unsupplied. -/
def buildKwargs (cust acct ctrt : Option String) (params : List String) :
    List (String × ArgVal) :=
  params.filterMap (fun pname =>
    let p := pyLower pname
    if (p = "customer" ∨ p = "customer_id") ∧ cfgTruthy cust = true then
      cust.map (fun c => (pname, ArgVal.idv c))
    else if (p = "account" ∨ p = "account_id") ∧ cfgTruthy acct = true then
      acct.map (fun c => (pname, ArgVal.idv c))
    else if (p = "contract" ∨ p = "contract_id") ∧ cfgTruthy ctrt = true then
      ctrt.map (fun c => (pname, ArgVal.idv c))
    else if p = "verify_ssl" then some (pname, ArgVal.flag true)
    else none)

/-- `call_hydroqc_once` (lines 351-377) at the level of its argument
assembly and call discipline.  `none` for the accessor models a missing
attribute (`AttributeError`, line 357).  The returned list holds the
keyword-argument set of each performed invocation: the source has one
call site (line 376, `m(**kwargs) if sig.parameters else m()`), so
exactly one invocation is recorded, and `run_coro` (line 377) only
awaits an already-produced coroutine without re-invoking. -/
def call_hydroqc_once (cust acct ctrt : Option String) (acc : Option Accessor) :
    Except Unit (List (List (String × ArgVal))) :=
  match acc with
  | none => .error ()
  | some a =>
    .ok [if a.params.isEmpty then [] else buildKwargs cust acct ctrt a.params]

theorem call_hydroqc_once_some (cust acct ctrt : Option String) (a : Accessor) :
    call_hydroqc_once cust acct ctrt (some a)
      = .ok [if a.params.isEmpty then [] else buildKwargs cust acct ctrt a.params] := rfl

theorem buildKwargs_nil (cust acct ctrt : Option String) :
    ∀ params : List String, (∀ p ∈ params, pyLower p ∉ recognized_params) →
      buildKwargs cust acct ctrt params = []
  | [], _ => rfl
  | p :: t, h => by
    have hp : pyLower p ∉ recognized_params := h p (by simp)
    simp only [recognized_params, List.mem_cons, not_or] at hp
    have h1 : ¬((pyLower p = "customer" ∨ pyLower p = "customer_id")
        ∧ cfgTruthy cust = true) := by
      rintro ⟨hor, _⟩
      rcases hor with h' | h'
      · exact hp.1 h'
      · exact hp.2.1 h'
    have h2 : ¬((pyLower p = "account" ∨ pyLower p = "account_id")
        ∧ cfgTruthy acct = true) := by
      rintro ⟨hor, _⟩
      rcases hor with h' | h'
      · exact hp.2.2.1 h'
      · exact hp.2.2.2.1 h'
    have h3 : ¬((pyLower p = "contract" ∨ pyLower p = "contract_id")
        ∧ cfgTruthy ctrt = true) := by
      rintro ⟨hor, _⟩
      rcases hor with h' | h'
      · exact hp.2.2.2.2.1 h'
      · exact hp.2.2.2.2.2.1 h'
    have h4 : ¬(pyLower p = "verify_ssl") := fun h' => hp.2.2.2.2.2.2.1 h'
    have hstep : buildKwargs cust acct ctrt (p :: t) = buildKwargs cust acct ctrt t := by
      simp only [buildKwargs, List.filterMap_cons]
      rw [if_neg h1, if_neg h2, if_neg h3, if_neg h4]
    rw [hstep]
    exact buildKwargs_nil cust acct ctrt t (fun q hq => h q (List.mem_cons_of_mem _ hq))

/-- C6: for an accessor whose declared parameters include `customer_id`
and a configured (truthy) customer identifier, the invoker supplies
that identifier as the argument for that parameter and performs the one
call with the assembled kwargs; for an accessor none of whose
parameters matches a recognized role the single call carries no
arguments; and in all cases exactly one invocation takes place. -/
theorem claim_C6_flexible_invoker (cust acct ctrt : Option String) (a : Accessor) :
    (∀ c, cust = some c → c ≠ "" → "customer_id" ∈ a.params →
      ("customer_id", ArgVal.idv c) ∈ buildKwargs cust acct ctrt a.params
      ∧ call_hydroqc_once cust acct ctrt (some a)
          = .ok [buildKwargs cust acct ctrt a.params])
    ∧ ((∀ p ∈ a.params, pyLower p ∉ recognized_params) →
        call_hydroqc_once cust acct ctrt (some a) = .ok [[]])
    ∧ ∃ kw, call_hydroqc_once cust acct ctrt (some a) = .ok [kw] := by
  refine ⟨?_, ?_, ?_⟩
  · intro c hc hcne hmem
    subst hc
    constructor
    · apply List.mem_filterMap.mpr
      refine ⟨"customer_id", hmem, ?_⟩
      simp only []
      rw [if_pos ⟨Or.inr (by decide), by simpa [cfgTruthy] using hcne⟩]
      rfl
    · rw [call_hydroqc_once_some, if_neg]
      simp only [List.isEmpty_eq_true]
      exact List.ne_nil_of_mem hmem
  · intro hall
    rw [call_hydroqc_once_some]
    by_cases hemp : a.params.isEmpty
    · rw [if_pos hemp]
    · rw [if_neg hemp, buildKwargs_nil cust acct ctrt a.params hall]
  · exact ⟨_, rfl⟩

/-- C6 witness: the accessor `(customer_id)` with configured customer
identifier `0123456789` receives it; the accessor `(payload)` with no
recognized parameter is called with no arguments. -/
theorem claim_C6_flexible_invoker_witness :
    ("customer_id", ArgVal.idv "0123456789")
        ∈ buildKwargs (some "0123456789") none none ["customer_id"]
    ∧ call_hydroqc_once none none none (some ⟨["payload"]⟩) = .ok [[]] := by
  constructor
  · exact ((claim_C6_flexible_invoker (some "0123456789") none none
      ⟨["customer_id"]⟩).1 "0123456789" rfl (by decide) (by decide)).1
  · exact (claim_C6_flexible_invoker none none none ⟨["payload"]⟩).2.1 (by decide)

/-! ## The usage RUN block (lines 241-315) -/

/-- A Python `datetime.date`. -/
structure PyDate where
  y : Nat
  m : Nat
  d : Nat
deriving DecidableEq, Repr

/-- `a < b` on Python dates. -/
def dateLt (a b : PyDate) : Bool :=
  if a.y ≠ b.y then a.y < b.y
  else if a.m ≠ b.m then a.m < b.m
  else a.d < b.d

/-- User-visible and network effects of the usage RUN block. -/
inductive UiEffect where
  | uiError (msg : String)
  | stopRun
  | connectClient
  | caption (msg : String)
  | fetch (what : String)
  | render (what : String)
deriving DecidableEq, Repr

/-- The usage RUN block (lines 241-315) as the ordered effect trace of
one click, with the login outcome as an oracle.  `connectClient` is the
`get_hydroqapi_client` call of line 248 (client construction plus
login, the first network activity); the granearity branches of
lines 257-308 are summarised by their fetch and render effects, which
is all the ordering claim needs. -/
def usageRun (granularity : String) (start_date end_date : PyDate)
    (loginOk : Bool) : List UiEffect :=
  if granularity = "Daily" ∧ dateLt end_date start_date = true then
    [.uiError "Start date must be before end date.", .stopRun]
  else if !loginOk then
    [.connectClient, .uiError "login failed", .stopRun]
  else
    [.connectClient, .caption "Logged in (usage).", .fetch granularity, .render granularity]

/-- C8: with Daily granularity and a start date strictly later than the
end date, the RUN block emits the error message and stops; the trace
contains no client construction/login and no fetch, whatever the login
oracle would have said. -/
theorem claim_C8_daily_range_guard (sd ed : PyDate) (loginOk : Bool)
    (h : dateLt ed sd = true) :
    usageRun "Daily" sd ed loginOk
        = [.uiError "Start date must be before end date.", .stopRun]
    ∧ UiEffect.connectClient ∉ usageRun "Daily" sd ed loginOk
    ∧ ∀ w, UiEffect.fetch w ∉ usageRun "Daily" sd ed loginOk := by
  have heq : usageRun "Daily" sd ed loginOk
      = [.uiError "Start date must be before end date.", .stopRun] := by
    unfold usageRun
    rw [if_pos ⟨rfl, h⟩]
  refine ⟨heq, ?_, ?_⟩
  · rw [heq]
    decide
  · intro w
    rw [heq]
    simp

/-- C8 witness: start 2024-05-02 strictly after end 2024-05-01. -/
theorem claim_C8_daily_range_guard_witness :
    usageRun "Daily" ⟨2024, 5, 2⟩ ⟨2024, 5, 1⟩ true
        = [.uiError "Start date must be before end date.", .stopRun]
    ∧ UiEffect.connectClient ∉ usageRun "Daily" ⟨2024, 5, 2⟩ ⟨2024, 5, 1⟩ true := by
  have h := claim_C8_daily_range_guard ⟨2024, 5, 2⟩ ⟨2024, 5, 1⟩ true (by decide)
  exact ⟨h.1, h.2.1⟩
